import Mathlib

/-!
Verification development for the O3DESharp binding-generation pipeline.

This file gives a shallow embedding, in Lean 4, of the two Python modules
`gem_dependency_resolver.py` and `csharp_binding_generator.py`:

* Python `dict`s (which preserve insertion order) are modelled as
  association lists with an in-place upsert (`dictInsert`).
* `hashlib.md5` is implemented bit-for-bit (RFC 1321) over the UTF-8
  encoding of the hashed string, so content checksums and the
  deterministic solution GUIDs are computed for real.
* The mutable resolver / generator objects become explicit state records;
  methods that mutate state return the new state.
* Unbounded `while`/recursion (Kahn's queue, the transitive-dependency
  DFS, the `".."`-collapsing loop) is given fuel that provably (or, for
  the string loop, by a length bound) covers every run.

Theorems about the embedding settle the frozen claims C1-C10.
-/

namespace O3DESharp

/- ============================================================
   Ordered-dictionary helpers (Python `dict` semantics)
   ============================================================ -/

/-- Lookup in an insertion-ordered association list (first match). -/
def dictGet {α : Type} (k : String) : List (String × α) → Option α
  | [] => none
  | (k', v) :: rest => if k' = k then some v else dictGet k rest

/-- Python `d[k] = v`: replace in place if the key exists, else append. -/
def dictInsert {α : Type} (k : String) (v : α) : List (String × α) → List (String × α)
  | [] => [(k, v)]
  | (k', v') :: rest => if k' = k then (k, v) :: rest else (k', v') :: dictInsert k v rest

/-- Python `k in d`. -/
def dictHas {α : Type} (k : String) (d : List (String × α)) : Bool :=
  (dictGet k d).isSome

theorem dictGet_dictInsert_self {α : Type} (k : String) (v : α) (d : List (String × α)) :
    dictGet k (dictInsert k v d) = some v := by
  induction d with
  | nil => simp [dictInsert, dictGet]
  | cons p rest ih =>
    obtain ⟨k', v'⟩ := p
    by_cases h : k' = k
    · simp [dictInsert, dictGet, h]
    · simp [dictInsert, dictGet, h, ih]

theorem dictGet_dictInsert_ne {α : Type} (k k' : String) (v : α) (d : List (String × α))
    (h : k ≠ k') : dictGet k' (dictInsert k v d) = dictGet k' d := by
  induction d with
  | nil => simp [dictInsert, dictGet, h]
  | cons p rest ih =>
    obtain ⟨k0, v0⟩ := p
    by_cases h0 : k0 = k
    · subst h0
      simp [dictInsert, dictGet, h]
    · by_cases h1 : k0 = k'
      · simp [dictInsert, dictGet, h0, h1, Ne.symm h]
      · simp [dictInsert, dictGet, h0, h1, ih]

theorem dictGet_mem_values {α : Type} {k : String} {v : α} {d : List (String × α)}
    (h : dictGet k d = some v) : v ∈ d.map (·.2) := by
  induction d with
  | nil => simp [dictGet] at h
  | cons p rest ih =>
    obtain ⟨k', v'⟩ := p
    by_cases hk : k' = k
    · simp [dictGet, hk] at h
      simp [h]
    · simp [dictGet, hk] at h
      simpa using Or.inr (ih h)

/- ============================================================
   Python string primitives
   (re-implemented over `List Char` so that every definition in this file
   evaluates inside the kernel; the ASCII-only case of `lower`/`upper`
   matches Python on the identifier/keyword data handled here)
   ============================================================ -/

/-- `listIsPrefixOf p l`: does `l` start with `p`? -/
def listIsPrefixOf : List Char → List Char → Bool
  | [], _ => true
  | _ :: _, [] => false
  | p :: ps, c :: cs => if p = c then listIsPrefixOf ps cs else false

/-- Python `s.startswith(pre)`. -/
def pyStartsWith (s pre : String) : Bool :=
  listIsPrefixOf pre.data s.data

/-- Python `str.replace` on char lists: every non-overlapping occurrence,
left to right (the pattern is non-empty at every call site).  The fuel is
an upper bound on the remaining list length, so `fuel = l.length` always
suffices: each step consumes at least one character. -/
def replaceList (pat rep : List Char) : Nat → List Char → List Char
  | _, [] => []
  | 0, l => l
  | fuel + 1, c :: rest =>
    if pat ≠ [] ∧ listIsPrefixOf pat (c :: rest) = true then
      rep ++ replaceList pat rep fuel ((c :: rest).drop pat.length)
    else
      c :: replaceList pat rep fuel rest

/-- Python `s.replace(pat, rep)`. -/
def pyReplace (s pat rep : String) : String :=
  String.mk (replaceList pat.data rep.data s.data.length s.data)

/-- Python `s.split(sep)` (non-empty separator), accumulator-passing, with
the same length-bounding fuel scheme as `replaceList`. -/
def splitOnList (sep : List Char) : Nat → List Char → List Char → List (List Char)
  | _, [], acc => [acc.reverse]
  | 0, _, acc => [acc.reverse]
  | fuel + 1, c :: rest, acc =>
    if sep ≠ [] ∧ listIsPrefixOf sep (c :: rest) = true then
      acc.reverse :: splitOnList sep fuel ((c :: rest).drop sep.length) []
    else
      splitOnList sep fuel rest (c :: acc)

/-- Python `s.split(sep)`. -/
def pySplitOn (s sep : String) : List String :=
  (splitOnList sep.data s.data.length s.data []).map String.mk

/-- ASCII lower-casing of one character. -/
def charLower (c : Char) : Char :=
  if 65 ≤ c.toNat ∧ c.toNat ≤ 90 then Char.ofNat (c.toNat + 32) else c

/-- ASCII upper-casing of one character. -/
def charUpper (c : Char) : Char :=
  if 97 ≤ c.toNat ∧ c.toNat ≤ 122 then Char.ofNat (c.toNat - 32) else c

/-- Python `s.lower()` (ASCII range). -/
def pyLower (s : String) : String :=
  String.mk (s.data.map charLower)

/-- Python whitespace, as stripped by `str.strip()`. -/
def isPySpace (c : Char) : Bool :=
  [' ', '\t', '\n', '\r', '\x0b', '\x0c'].contains c

/-- Python `s.strip()`. -/
def pyTrim (s : String) : String :=
  String.mk (((s.data.dropWhile isPySpace).reverse.dropWhile isPySpace).reverse)

/-- Python `c in s` for a single-character needle. -/
def pyContainsChar (s : String) (c : Char) : Bool :=
  s.data.contains c

/-- Python `s[n:]`. -/
def pyDrop (s : String) (n : Nat) : String :=
  String.mk (s.data.drop n)

/-- Python `sep.join(parts)`. -/
def joinSep (sep : String) : List String → String
  | [] => ""
  | [s] => s
  | s :: rest => s ++ sep ++ joinSep sep rest

/-- Code-point lexicographic `<` on char lists (Python string `<`). -/
def charListLt : List Char → List Char → Bool
  | [], [] => false
  | [], _ :: _ => true
  | _ :: _, [] => false
  | a :: as, b :: bs =>
    if a.toNat < b.toNat then true
    else if a.toNat = b.toNat then charListLt as bs
    else false

/-- Python `a < b` on strings. -/
def pyStrLt (a b : String) : Bool :=
  charListLt a.data b.data

/- ============================================================
   UTF-8 encoding (Python `str.encode("utf-8")`)
   ============================================================ -/

/-- UTF-8 encoding of one Unicode scalar value, as byte values. -/
def utf8EncodeChar (c : Char) : List Nat :=
  let n := c.toNat
  if n < 128 then [n]
  else if n < 2048 then [192 ||| (n >>> 6), 128 ||| (n &&& 63)]
  else if n < 65536 then
    [224 ||| (n >>> 12), 128 ||| ((n >>> 6) &&& 63), 128 ||| (n &&& 63)]
  else
    [240 ||| (n >>> 18), 128 ||| ((n >>> 12) &&& 63),
     128 ||| ((n >>> 6) &&& 63), 128 ||| (n &&& 63)]

/-- `s.encode("utf-8")` as a list of byte values. -/
def utf8Encode (s : String) : List Nat :=
  s.data.flatMap utf8EncodeChar

/- ============================================================
   MD5 (RFC 1321), as used by `hashlib.md5`
   ============================================================ -/

/-- Per-round left-rotation amounts of MD5. -/
def md5Shifts : List Nat :=
  [7, 12, 17, 22, 7, 12, 17, 22, 7, 12, 17, 22, 7, 12, 17, 22,
   5, 9, 14, 20, 5, 9, 14, 20, 5, 9, 14, 20, 5, 9, 14, 20,
   4, 11, 16, 23, 4, 11, 16, 23, 4, 11, 16, 23, 4, 11, 16, 23,
   6, 10, 15, 21, 6, 10, 15, 21, 6, 10, 15, 21, 6, 10, 15, 21]

/-- MD5 sine-derived round constants. -/
def md5K : List Nat :=
  [0xd76aa478, 0xe8c7b756, 0x242070db, 0xc1bdceee,
   0xf57c0faf, 0x4787c62a, 0xa8304613, 0xfd469501,
   0x698098d8, 0x8b44f7af, 0xffff5bb1, 0x895cd7be,
   0x6b901122, 0xfd987193, 0xa679438e, 0x49b40821,
   0xf61e2562, 0xc040b340, 0x265e5a51, 0xe9b6c7aa,
   0xd62f105d, 0x02441453, 0xd8a1e681, 0xe7d3fbc8,
   0x21e1cde6, 0xc33707d6, 0xf4d50d87, 0x455a14ed,
   0xa9e3e905, 0xfcefa3f8, 0x676f02d9, 0x8d2a4c8a,
   0xfffa3942, 0x8771f681, 0x6d9d6122, 0xfde5380c,
   0xa4beea44, 0x4bdecfa9, 0xf6bb4b60, 0xbebfbc70,
   0x289b7ec6, 0xeaa127fa, 0xd4ef3085, 0x04881d05,
   0xd9d4d039, 0xe6db99e5, 0x1fa27cf8, 0xc4ac5665,
   0xf4292244, 0x432aff97, 0xab9423a7, 0xfc93a039,
   0x655b59c3, 0x8f0ccc92, 0xffeff47d, 0x85845dd1,
   0x6fa87e4f, 0xfe2ce6e0, 0xa3014314, 0x4e0811a1,
   0xf7537e82, 0xbd3af235, 0x2ad7d2bb, 0xeb86d391]

def mod32 (x : Nat) : Nat := x % 4294967296

def not32 (x : Nat) : Nat := Nat.xor x 4294967295

def rotl32 (x n : Nat) : Nat :=
  mod32 (x <<< n) ||| (x >>> (32 - n))

/-- MD5 padding: 0x80, zeros to 56 mod 64, then the bit length little-endian. -/
def md5Pad (msg : List Nat) : List Nat :=
  let bitLen := (8 * msg.length) % 18446744073709551616
  let padLen := (55 + 64 - msg.length % 64) % 64 + 1
  msg ++ (128 :: List.replicate (padLen - 1) 0) ++
    (List.range 8).map (fun i => bitLen >>> (8 * i) &&& 255)

/-- Little-endian 32-bit word from four bytes. -/
def leWord (l : List Nat) : Nat := l.foldr (fun b acc => b + 256 * acc) 0

/-- Little-endian byte decomposition of a 32-bit word. -/
def le4 (x : Nat) : List Nat :=
  [x &&& 255, (x >>> 8) &&& 255, (x >>> 16) &&& 255, (x >>> 24) &&& 255]

/-- One MD5 round `i` on state `(a, b, c, d)` with message words `m`. -/
def md5Round (m : Nat → Nat) (st : Nat × Nat × Nat × Nat) (i : Nat) :
    Nat × Nat × Nat × Nat :=
  let (a, b, c, d) := st
  let (f, g) :=
    if i < 16 then ((b &&& c) ||| (not32 b &&& d), i)
    else if i < 32 then ((d &&& b) ||| (not32 d &&& c), (5 * i + 1) % 16)
    else if i < 48 then (Nat.xor (Nat.xor b c) d, (3 * i + 5) % 16)
    else (Nat.xor c (b ||| not32 d), (7 * i) % 16)
  let f := mod32 (f + a + (md5K.getD i 0) + m g)
  (d, mod32 (b + rotl32 f (md5Shifts.getD i 0)), b, c)

/-- Process one 64-byte block, updating the running digest state. -/
def md5Block (st : Nat × Nat × Nat × Nat) (block : List Nat) :
    Nat × Nat × Nat × Nat :=
  let m : Nat → Nat := fun g => leWord ((block.drop (4 * g)).take 4)
  let (a0, b0, c0, d0) := st
  let (a, b, c, d) := (List.range 64).foldl (md5Round m) st
  (mod32 (a0 + a), mod32 (b0 + b), mod32 (c0 + c), mod32 (d0 + d))

/-- MD5 digest (16 bytes) of a byte string. -/
def md5Digest (msg : List Nat) : List Nat :=
  let padded := md5Pad msg
  let blocks := (List.range (padded.length / 64)).map
    (fun i => (padded.drop (64 * i)).take 64)
  let (a, b, c, d) :=
    blocks.foldl md5Block (0x67452301, 0xefcdab89, 0x98badcfe, 0x10325476)
  le4 a ++ le4 b ++ le4 c ++ le4 d

def hexDigitLower (n : Nat) : Char :=
  "0123456789abcdef".data.getD n '0'

def hexDigitUpper (n : Nat) : Char :=
  "0123456789ABCDEF".data.getD n '0'

/-- `{b:02x}`: a byte as two lowercase hex digits. -/
def byteHexLower (b : Nat) : String :=
  String.mk [hexDigitLower (b / 16), hexDigitLower (b % 16)]

/-- `{b:02X}`: a byte as two uppercase hex digits. -/
def byteHexUpper (b : Nat) : String :=
  String.mk [hexDigitUpper (b / 16), hexDigitUpper (b % 16)]

/-- `hashlib.md5(s.encode("utf-8")).hexdigest()`. -/
def md5HexOfString (s : String) : String :=
  String.join ((md5Digest (utf8Encode s)).map byteHexLower)

set_option maxRecDepth 100000 in
theorem md5_empty_vector :
    md5HexOfString "" = "d41d8cd98f00b204e9800998ecf8427e" := by decide

set_option maxRecDepth 100000 in
theorem md5_abc_vector :
    md5HexOfString "abc" = "900150983cd24fb0d6963f7d28e17f72" := by decide

/- ============================================================
   gem_dependency_resolver.py : data model
   ============================================================ -/

/-- `GemDescriptor` (filesystem path and tag fields, unused by the claims'
code paths, are omitted). -/
structure GemDescriptor where
  name : String
  display_name : String := ""
  version : String := "1.0.0"
  dependencies : List String := []
  dependents : List String := []
  summary : String := ""
  module_names : List String := []
  is_active : Bool := false
  is_loaded : Bool := false
deriving DecidableEq, Repr

/-- `GemDescriptor.__post_init__`: an empty display name defaults to `name`. -/
def gem_post_init (g : GemDescriptor) : GemDescriptor :=
  if g.display_name = "" then { g with display_name := g.name } else g

/-- `GemMappingConfig`. -/
structure GemMappingConfig where
  use_category_attribute : Bool := true
  use_name_prefixes : Bool := true
  use_module_hints : Bool := true
  prefix_mappings : List (String × String) := []
  category_mappings : List (String × String) := []
  default_gem_name : String := "O3DE.Core"
deriving DecidableEq, Repr

/-- `DEFAULT_PREFIX_MAPPINGS`, in source (dict-literal insertion) order. -/
def DEFAULT_PREFIX_MAPPINGS : List (String × String) :=
  [("AZ", "AzCore"), ("Az", "AzCore"), ("Atom", "Atom"), ("AtomRPI", "Atom_RPI"),
   ("AtomRHI", "Atom_RHI"), ("AtomUtils", "Atom_Utils"), ("PhysX", "PhysX"),
   ("Script", "ScriptCanvas"), ("ScriptCanvas", "ScriptCanvas"),
   ("Multiplayer", "Multiplayer"), ("Network", "Multiplayer"), ("UI", "LyShine"),
   ("Ly", "LyShine"), ("AWS", "AWSCore"), ("Http", "HttpRequestor"),
   ("Input", "StartingPointInput"), ("Audio", "AudioSystem"), ("Terrain", "Terrain"),
   ("Vegetation", "Vegetation"), ("Landscape", "LandscapeCanvas"),
   ("EMotionFX", "EMotionFX"), ("Animation", "EMotionFX"), ("Debug", "ImGui"),
   ("ImGui", "ImGui"), ("Camera", "StartingPointCamera"), ("Transform", "AzCore"),
   ("Entity", "AzCore"), ("Component", "AzCore")]

/-- `DEFAULT_CATEGORY_MAPPINGS`, in source order. -/
def DEFAULT_CATEGORY_MAPPINGS : List (String × String) :=
  [("Core", "AzCore"), ("Math", "AzCore"), ("Entity", "AzCore"),
   ("Components", "AzCore"), ("Rendering", "Atom"), ("Render", "Atom"),
   ("Graphics", "Atom"), ("Material", "Atom"), ("Mesh", "Atom"),
   ("Physics", "PhysX"), ("Collision", "PhysX"), ("Rigid Body", "PhysX"),
   ("Script", "ScriptCanvas"), ("Scripting", "ScriptCanvas"),
   ("Networking", "Multiplayer"), ("Multiplayer", "Multiplayer"),
   ("UI", "LyShine"), ("Audio", "AudioSystem"), ("Animation", "EMotionFX"),
   ("Terrain", "Terrain"), ("Vegetation", "Vegetation"),
   ("Camera", "StartingPointCamera"), ("Input", "StartingPointInput"),
   ("Debugging", "ImGui")]

/-- Mutable state of a `GemDependencyResolver` object: `_gems` is the
insertion-ordered dict of descriptors keyed by `descriptor.name`. -/
structure GemDependencyResolver where
  gems : List GemDescriptor := []
  sorted_gems : List String := []
  class_mappings : List (String × String) := []
  mapping_config : GemMappingConfig := {}
  normalized_name_lookup : List (String × String) := []
  graph_built : Bool := false
deriving DecidableEq, Repr

/-- `GemDependencyResolver.__init__`. -/
def resolver_init : GemDependencyResolver :=
  { mapping_config :=
      { prefix_mappings := DEFAULT_PREFIX_MAPPINGS
        category_mappings := DEFAULT_CATEGORY_MAPPINGS } }

/-- `name in self._gems` / `self._gems[name]` on the descriptor dict. -/
def findGem : List GemDescriptor → String → Option GemDescriptor
  | [], _ => none
  | g :: rest, n => if g.name = n then some g else findGem rest n

/-- `self._gems[descriptor.name] = descriptor`: in-place upsert by name. -/
def gemsInsert (d : GemDescriptor) : List GemDescriptor → List GemDescriptor
  | [] => [d]
  | g :: rest => if g.name = d.name then d :: rest else g :: gemsInsert d rest

/-- `_normalize_gem_name`. -/
def normalize_gem_name (gem_name : String) : String :=
  pyReplace (pyReplace (pyLower gem_name) "_" "") "-" ""

/-- `register_gem`. -/
def register_gem (r : GemDependencyResolver) (descriptor : GemDescriptor) :
    GemDependencyResolver :=
  { r with
    gems := gemsInsert descriptor r.gems
    normalized_name_lookup :=
      dictInsert (normalize_gem_name descriptor.name) descriptor.name
        r.normalized_name_lookup
    graph_built := false }

/-- `clear`. -/
def resolver_clear (r : GemDependencyResolver) : GemDependencyResolver :=
  { r with gems := [], sorted_gems := [], class_mappings := [],
           normalized_name_lookup := [], graph_built := false }

/-- `get_gem`. -/
def get_gem (r : GemDependencyResolver) (gem_name : String) : Option GemDescriptor :=
  match findGem r.gems gem_name with
  | some g => some g
  | none =>
    match dictGet (normalize_gem_name gem_name) r.normalized_name_lookup with
    | some real_name => findGem r.gems real_name
    | none => none

/-- `has_gem`. -/
def has_gem (r : GemDependencyResolver) (gem_name : String) : Bool :=
  if (findGem r.gems gem_name).isSome then true
  else (dictGet (normalize_gem_name gem_name) r.normalized_name_lookup).isSome

/-- `get_active_gem_names`. -/
def get_active_gem_names (r : GemDependencyResolver) : List String :=
  (r.gems.filter (fun g => g.is_active)).map (·.name)

/- ============================================================
   gem_dependency_resolver.py : dependency graph and ordering
   ============================================================ -/

/-- Appending `gem_name` to the `dependents` list of the gem named
`dep` (the `if dep in self._gems` guard folds into the no-match case). -/
def addDependent (dep gem_name : String) (gems : List GemDescriptor) :
    List GemDescriptor :=
  gems.map (fun g =>
    if g.name = dep then { g with dependents := g.dependents ++ [gem_name] } else g)

/-- `_build_dependency_graph` (descriptor-list part): clear every
`dependents` list, then append inverse edges in declaration order. -/
def build_dependency_graph (gems : List GemDescriptor) : List GemDescriptor :=
  let cleared := gems.map (fun g => { g with dependents := [] })
  cleared.foldl
    (fun acc g => g.dependencies.foldl (fun acc2 dep => addDependent dep g.name acc2) acc)
    cleared

/-- `in_degree[k] = f(in_degree[k])` (key assumed present, as in the source). -/
def dictAdjust (k : String) (f : Int → Int) : List (String × Int) → List (String × Int)
  | [] => []
  | (k', v) :: rest => if k' = k then (k', f v) :: rest else (k', v) :: dictAdjust k f rest

/-- The in-degree dict of `_topological_sort`: zero for every gem, then one
increment per declared dependency that is itself registered. -/
def inDegreeInit (gems : List GemDescriptor) : List (String × Int) :=
  let base := gems.map (fun g => (g.name, (0 : Int)))
  gems.foldl
    (fun acc g =>
      g.dependencies.foldl
        (fun acc2 dep =>
          if (findGem gems dep).isSome then dictAdjust g.name (fun v => v + 1) acc2
          else acc2)
        acc)
    base

/-- The body of the inner `for dependent in gem.dependents:` loop of
`_topological_sort`: decrement the dependent's in-degree and enqueue it
when the decrement reaches exactly zero. -/
def kahnStep (p : List (String × Int) × List String) (dependent : String) :
    List (String × Int) × List String :=
  let in_degree := dictAdjust dependent (fun v => v - 1) p.1
  let queue :=
    if dictGet dependent in_degree = some 0 then p.2 ++ [dependent] else p.2
  (in_degree, queue)

/-- The `while queue:` loop of `_topological_sort` (Kahn's algorithm).
The fuel is an upper bound on the number of iterations, proved sufficient
below; the final in-degree dict and queue are returned as well so that the
loop invariants can speak about them. -/
def kahnLoop (gems : List GemDescriptor) :
    Nat → List String → List (String × Int) → List String →
    List String × List (String × Int) × List String
  | 0, queue, in_degree, sorted => (sorted, in_degree, queue)
  | _ + 1, [], in_degree, sorted => (sorted, in_degree, [])
  | fuel + 1, current :: queue, in_degree, sorted =>
    let sorted := sorted ++ [current]
    match findGem gems current with
    | none => kahnLoop gems fuel queue in_degree sorted
    | some g =>
      let step := g.dependents.foldl kahnStep (in_degree, queue)
      kahnLoop gems fuel step.2 step.1 sorted

/-- `_topological_sort`: the sorted names, plus `true` when the
cyclic-dependency diagnostic (`logger.warning`) fires. -/
def topological_sort (gems : List GemDescriptor) : List String × Bool :=
  let in_degree := inDegreeInit gems
  let queue := (in_degree.filter (fun p => p.2 == 0)).map (·.1)
  let res := kahnLoop gems gems.length queue in_degree []
  let sorted := res.1
  if sorted.length ≠ gems.length then
    (sorted ++ (gems.map (·.name)).filter (fun n => !(sorted.contains n)), true)
  else
    (sorted, false)

/-- `get_gems_in_dependency_order` (returns the list and the mutated
resolver; the cycle diagnostic is recorded in the second component of
`topological_sort` and dropped here, as the source only logs it). -/
def get_gems_in_dependency_order (r : GemDependencyResolver) :
    List String × GemDependencyResolver :=
  if r.graph_built then (r.sorted_gems, r)
  else
    let gems := build_dependency_graph r.gems
    let sorted := (topological_sort gems).1
    (sorted, { r with gems := gems, sorted_gems := sorted, graph_built := true })

/-- Combined length of all declared dependency lists (fuel bound for the
depth of `_collect_dependencies` / `_collect_dependents`). -/
def totalDepsLen (gems : List GemDescriptor) : Nat :=
  gems.foldl (fun a g => a + g.dependencies.length) 0

/-- Combined length of all `dependents` lists. -/
def totalDependentsLen (gems : List GemDescriptor) : Nat :=
  gems.foldl (fun a g => a + g.dependents.length) 0

/-- `_collect_dependencies`: depth-first collection over declared
dependency edges, with the `(visited, result)` pair threaded through. -/
def collect_dependencies (gems : List GemDescriptor) :
    Nat → String → List String × List String → Bool → List String × List String
  | 0, _, vr, _ => vr
  | fuel + 1, gem_name, vr, include_transitive =>
    match findGem gems gem_name with
    | none => vr
    | some g =>
      g.dependencies.foldl
        (fun vr dep =>
          if dep ∈ vr.1 then vr
          else
            let vr := (vr.1 ++ [dep], vr.2 ++ [dep])
            if include_transitive then
              collect_dependencies gems fuel dep vr include_transitive
            else vr)
        vr

/-- `_collect_dependents`: the symmetric traversal over inverse edges. -/
def collect_dependents (gems : List GemDescriptor) :
    Nat → String → List String × List String → Bool → List String × List String
  | 0, _, vr, _ => vr
  | fuel + 1, gem_name, vr, include_transitive =>
    match findGem gems gem_name with
    | none => vr
    | some g =>
      g.dependents.foldl
        (fun vr dep =>
          if dep ∈ vr.1 then vr
          else
            let vr := (vr.1 ++ [dep], vr.2 ++ [dep])
            if include_transitive then
              collect_dependents gems fuel dep vr include_transitive
            else vr)
        vr

/-- `get_gem_dependencies` (default `include_transitive=True`). -/
def get_gem_dependencies (r : GemDependencyResolver) (gem_name : String)
    (include_transitive : Bool := true) : List String :=
  (collect_dependencies r.gems (totalDepsLen r.gems + 1) gem_name ([], [])
    include_transitive).2

/-- `get_gem_dependents` (default `include_transitive=True`); note that the
source reads the stored `dependents` lists without rebuilding the graph. -/
def get_gem_dependents (r : GemDependencyResolver) (gem_name : String)
    (include_transitive : Bool := true) : List String :=
  (collect_dependents r.gems (totalDependentsLen r.gems + 1) gem_name ([], [])
    include_transitive).2

/-- `depends_on`. -/
def depends_on (r : GemDependencyResolver) (gem_name dependency_name : String) : Bool :=
  decide (dependency_name ∈ get_gem_dependencies r gem_name true)

/- ============================================================
   gem_dependency_resolver.py : class-to-gem mapping
   ============================================================ -/

/-- `_extract_gem_hint_from_class_name`. -/
def extract_gem_hint_from_class_name (r : GemDependencyResolver)
    (class_name : String) : String :=
  let fallback :=
    match r.gems.find? (fun g => pyStartsWith class_name g.name) with
    | some g => g.name
    | none => ""
  if (pySplitOn class_name "::").length > 1 then
    let ns := (pySplitOn class_name "::").headD ""
    if has_gem r ns then ns
    else
      match dictGet (normalize_gem_name ns) r.normalized_name_lookup with
      | some real_name => real_name
      | none => fallback
  else fallback

/-- `_extract_gem_hint_from_category`. -/
def extract_gem_hint_from_category (r : GemDependencyResolver)
    (category : String) : String :=
  let whole :=
    if has_gem r category then category
    else
      match dictGet (normalize_gem_name category) r.normalized_name_lookup with
      | some real_name => real_name
      | none => ""
  if pyContainsChar category '/' then
    let first := (pySplitOn category "/").headD ""
    if has_gem r first then first
    else
      match dictGet (normalize_gem_name first) r.normalized_name_lookup with
      | some real_name => real_name
      | none => whole
  else whole

/-- `resolve_gem_for_class`: explicit mapping, then category hint and
category table, then name-prefix hint and prefix table, then the default. -/
def resolve_gem_for_class (r : GemDependencyResolver) (class_name : String)
    (category : String := "") : String :=
  match dictGet class_name r.class_mappings with
  | some gem_name => gem_name
  | none =>
    let step2 : Option String :=
      if r.mapping_config.use_category_attribute ∧ category ≠ "" then
        let gem_hint := extract_gem_hint_from_category r category
        if gem_hint ≠ "" ∧ has_gem r gem_hint then some gem_hint
        else dictGet category r.mapping_config.category_mappings
      else none
    match step2 with
    | some g => g
    | none =>
      let step3 : Option String :=
        if r.mapping_config.use_name_prefixes then
          let gem_hint := extract_gem_hint_from_class_name r class_name
          if gem_hint ≠ "" ∧ has_gem r gem_hint then some gem_hint
          else
            match r.mapping_config.prefix_mappings.find?
                (fun p => pyStartsWith class_name p.1) with
            | some p => some p.2
            | none => none
        else none
      match step3 with
      | some g => g
      | none => r.mapping_config.default_gem_name

/-- `register_class_mapping`. -/
def register_class_mapping (r : GemDependencyResolver)
    (class_name gem_name : String) : GemDependencyResolver :=
  { r with class_mappings := dictInsert class_name gem_name r.class_mappings }

/-- `auto_populate_class_mappings`. -/
def auto_populate_class_mappings (r : GemDependencyResolver) :
    GemDependencyResolver :=
  let pm := r.gems.foldl
    (fun acc g => g.module_names.foldl (fun acc2 m => dictInsert m g.name acc2) acc)
    r.mapping_config.prefix_mappings
  { r with mapping_config := { r.mapping_config with prefix_mappings := pm } }

/-- `should_generate_bindings`: exclusion first, then inclusion, then the
active flag of the (possibly normalized-name) descriptor. -/
def should_generate_bindings (r : GemDependencyResolver) (gem_name : String)
    (include_list exclude_list : List String) : Bool :=
  if exclude_list ≠ [] ∧ gem_name ∈ exclude_list then false
  else if include_list ≠ [] then decide (gem_name ∈ include_list)
  else
    match get_gem r gem_name with
    | some gem => gem.is_active
    | none => false

/- ============================================================
   csharp_binding_generator.py : reflection data model
   ============================================================ -/

/-- `ReflectedParameter`. -/
structure ReflectedParameter where
  name : String
  type_name : String
  type_id : String := ""
  is_pointer : Bool := false
  is_reference : Bool := false
  is_const : Bool := false
  marshal_type : String := "Unknown"
deriving DecidableEq, Repr

/-- The `void` sentinel installed by `ReflectedMethod.__post_init__`. -/
def voidParameter : ReflectedParameter := { name := "", type_name := "void" }

/-- The `object` sentinel installed by `ReflectedProperty.__post_init__`. -/
def objectParameter : ReflectedParameter := { name := "", type_name := "object" }

/-- `ReflectedMethod` (with the post-init `void` return-type default). -/
structure ReflectedMethod where
  name : String
  class_name : String := ""
  is_static : Bool := false
  is_const : Bool := false
  return_type : ReflectedParameter := voidParameter
  parameters : List ReflectedParameter := []
  description : String := ""
  category : String := ""
  is_deprecated : Bool := false
  deprecation_message : String := ""
deriving DecidableEq, Repr

/-- `ReflectedProperty` (with the post-init `object` value-type default). -/
structure ReflectedProperty where
  name : String
  class_name : String := ""
  value_type : ReflectedParameter := objectParameter
  has_getter : Bool := true
  has_setter : Bool := true
  description : String := ""
  is_deprecated : Bool := false
deriving DecidableEq, Repr

/-- `ReflectedEBusEvent`. -/
structure ReflectedEBusEvent where
  name : String
  bus_name : String := ""
  return_type : ReflectedParameter := voidParameter
  parameters : List ReflectedParameter := []
  is_broadcast : Bool := true
deriving DecidableEq, Repr

/-- `ReflectedEBus` (`address_type` is `None` for broadcast-only buses). -/
structure ReflectedEBus where
  name : String
  type_id : String := ""
  address_type : Option ReflectedParameter := none
  events : List ReflectedEBusEvent := []
  description : String := ""
  category : String := ""
  source_gem_name : String := ""
deriving DecidableEq, Repr

/-- `ReflectedClass`. -/
structure ReflectedClass where
  name : String
  type_id : String := ""
  base_classes : List String := []
  methods : List ReflectedMethod := []
  properties : List ReflectedProperty := []
  constructors : List ReflectedMethod := []
  description : String := ""
  category : String := ""
  is_deprecated : Bool := false
  source_gem_name : String := ""
deriving DecidableEq, Repr

/-- `ReflectionData`: the class and ebus dicts are modelled as their
insertion-ordered value lists (keyed by `name`). -/
structure ReflectionData where
  classes : List ReflectedClass := []
  ebuses : List ReflectedEBus := []
  global_methods : List ReflectedMethod := []
  global_properties : List ReflectedProperty := []
deriving DecidableEq, Repr

/-- `BindingGeneratorConfig`, with the source's default values. -/
structure BindingGeneratorConfig where
  output_directory : String := "Generated/CSharp"
  root_namespace : String := "O3DE.Generated"
  write_to_disk : Bool := true
  overwrite_existing : Bool := true
  generate_core_bindings : Bool := true
  core_namespace : String := "O3DE.Core"
  core_output_subdir : String := "Core"
  core_categories : List String :=
    ["Core", "Math", "Entity", "Components", "Transform", "Debug", "Time"]
  core_prefixes : List String :=
    ["AZ", "Az", "Entity", "Component", "Transform", "Vector", "Quaternion", "Matrix"]
  generate_gem_bindings : Bool := true
  separate_gem_directories : Bool := true
  generate_per_gem_projects : Bool := false
  include_gems : List String := []
  exclude_gems : List String := []
  include_gem_dependencies : Bool := true
  generate_documentation : Bool := true
  generate_ebus_wrappers : Bool := true
  mark_deprecated_as_obsolete : Bool := true
  generate_partial_classes : Bool := true
  generate_extension_methods : Bool := false
  file_header : String := ""
  generate_solution : Bool := true
  solution_name : String := "O3DE.Generated"
  generate_combined_assembly : Bool := true
  combined_assembly_name : String := "O3DE.Generated"
  target_framework : String := "net8.0"
deriving DecidableEq, Repr

/-- `GeneratedFile`. -/
structure GeneratedFile where
  relative_path : String
  content : String
  checksum : String := ""
deriving DecidableEq, Repr

/-- `GeneratedFile(relative_path=p, content=c)` with its `__post_init__`
MD5 checksum (the generator always constructs records this way). -/
def mkGeneratedFile (relative_path content : String) : GeneratedFile :=
  { relative_path := relative_path, content := content
    checksum := md5HexOfString content }

/-- `GemBindingStats`. -/
structure GemBindingStats where
  gem_name : String
  classes_generated : Nat := 0
  ebuses_generated : Nat := 0
  files_generated : Nat := 0
  generated_files : List String := []
deriving DecidableEq, Repr

/-- `BindingGeneratorResult` (the statistics object). -/
structure BindingGeneratorResult where
  success : Bool := false
  error_message : String := ""
  classes_generated : Nat := 0
  ebuses_generated : Nat := 0
  methods_generated : Nat := 0
  properties_generated : Nat := 0
  files_written : Nat := 0
  per_gem_stats : List GemBindingStats := []
  processed_gems : List String := []
  generated_files : List String := []
  warnings : List String := []
deriving DecidableEq, Repr

/-- `CSHARP_KEYWORDS` (a set: only membership is used). -/
def CSHARP_KEYWORDS : List String :=
  ["abstract", "as", "base", "bool", "break", "byte", "case", "catch", "char",
   "checked", "class", "const", "continue", "decimal", "default", "delegate",
   "do", "double", "else", "enum", "event", "explicit", "extern", "false",
   "finally", "fixed", "float", "for", "foreach", "goto", "if", "implicit",
   "in", "int", "interface", "internal", "is", "lock", "long", "namespace",
   "new", "null", "object", "operator", "out", "override", "params", "private",
   "protected", "public", "readonly", "ref", "return", "sbyte", "sealed",
   "short", "sizeof", "stackalloc", "static", "string", "struct", "switch",
   "this", "throw", "true", "try", "typeof", "uint", "ulong", "unchecked",
   "unsafe", "ushort", "using", "virtual", "void", "volatile", "while"]

/-- `TYPE_MAPPINGS`. -/
def TYPE_MAPPINGS : List (String × String) :=
  [("Vector3", "Vector3"), ("Quaternion", "Quaternion"), ("Transform", "Transform"),
   ("EntityId", "EntityId"), ("AZ::Vector3", "Vector3"), ("AZ::Quaternion", "Quaternion"),
   ("AZ::Transform", "Transform"), ("AZ::EntityId", "EntityId"),
   ("AZStd::string", "string"), ("string", "string"), ("bool", "bool"),
   ("int", "int"), ("float", "float"), ("double", "double"), ("int8", "sbyte"),
   ("int16", "short"), ("int32", "int"), ("int64", "long"), ("uint8", "byte"),
   ("uint16", "ushort"), ("uint32", "uint"), ("uint64", "ulong"), ("void", "void"),
   ("AZ::u8", "byte"), ("AZ::u16", "ushort"), ("AZ::u32", "uint"),
   ("AZ::u64", "ulong"), ("AZ::s8", "sbyte"), ("AZ::s16", "short"),
   ("AZ::s32", "int"), ("AZ::s64", "long")]

/- ============================================================
   csharp_binding_generator.py : naming / text helpers
   ============================================================ -/

/-- `_generate_file_header`: the configured header, or the provenance
comment carrying the `datetime.now()` timestamp `now`. -/
def generate_file_header (cfg : BindingGeneratorConfig) (now : String) : String :=
  if cfg.file_header ≠ "" then cfg.file_header
  else
    "//------------------------------------------------------------------------------\n" ++
    "// <auto-generated>\n" ++
    "//     This code was generated by O3DESharp Binding Generator.\n" ++
    "//     Generated: " ++ now ++ "\n" ++
    "//\n" ++
    "//     Changes to this file may be overwritten when regenerated.\n" ++
    "// </auto-generated>\n" ++
    "//------------------------------------------------------------------------------"

/-- `_generate_usings`. -/
def generate_usings : String :=
  "using System;\nusing System.Runtime.CompilerServices;\nusing System.Runtime.InteropServices;\nusing O3DE.Core;"

/-- `_indent`. -/
def indentStr (level : Nat) : String :=
  String.join (List.replicate level "    ")

/-- `_make_safe_name`. -/
def make_safe_name (name : String) : String :=
  if pyLower name ∈ CSHARP_KEYWORDS then "@" ++ name else name

/-- `_get_csharp_type_name`. -/
def get_csharp_type_name (type_name : String) : String :=
  match dictGet type_name TYPE_MAPPINGS with
  | some t => t
  | none =>
    let clean_name := pyTrim (pyReplace (pyReplace type_name "*" "") "&" "")
    match dictGet clean_name TYPE_MAPPINGS with
    | some t => t
    | none =>
      let clean_name :=
        if pyStartsWith clean_name "AZ::" then pyDrop clean_name 4
        else if pyStartsWith clean_name "AZStd::" then pyDrop clean_name 7
        else clean_name
      match dictGet clean_name TYPE_MAPPINGS with
      | some t => t
      | none => make_safe_name clean_name

/-- Python `str.capitalize()`: first character upper-cased, rest lower-cased. -/
def capitalizePy (s : String) : String :=
  match s.data with
  | [] => ""
  | c :: rest => String.mk (charUpper c :: (rest.map charLower))

/-- `_to_pascal_case`. -/
def to_pascal_case (name : String) : String :=
  if name = "" then name
  else if pyContainsChar name '_' then
    String.join
      (((pySplitOn name "_").filter (fun p => decide (p ≠ ""))).map capitalizePy)
  else
    match name.data with
    | [] => name
    | c :: rest => String.mk (charUpper c :: rest)

/-- `_to_camel_case`. -/
def to_camel_case (name : String) : String :=
  let pascal := to_pascal_case name
  match pascal.data with
  | [] => pascal
  | c :: rest => String.mk (charLower c :: rest)

/-- `_escape_xml`. -/
def escape_xml (text : String) : String :=
  pyReplace
    (pyReplace (pyReplace (pyReplace text "&" "&amp;") "<" "&lt;") ">" "&gt;")
    "\"" "&quot;"

/-- The `while ".." in clean_name` collapsing loop (fuel: each pass
shortens the string, so its length bounds the iteration count). -/
def collapseDots : Nat → String → String
  | 0, s => s
  | fuel + 1, s =>
    if (pySplitOn s "..").length > 1 then collapseDots fuel (pyReplace s ".." ".")
    else s

/-- `_get_gem_namespace`. -/
def get_gem_namespace (cfg : BindingGeneratorConfig) (gem_name : String) : String :=
  let clean_name := pyReplace (pyReplace gem_name "_" ".") "-" "."
  let clean_name := collapseDots clean_name.length clean_name
  cfg.root_namespace ++ "." ++ clean_name

/-- `_get_safe_filename` (same code in both modules). -/
def get_safe_filename (name : String) : String :=
  [":", "<", ">", "|", "?", "*", "/", "\\", "\""].foldl
    (fun result c => pyReplace result c "_") name

/-- `_get_category_filename`. -/
def get_category_filename (category : String) : String :=
  if category = "" then "Core"
  else to_pascal_case (get_safe_filename category)

/-- `result[category].append(item)` with key creation, insertion-ordered. -/
def dictAppendItem {α : Type} (k : String) (x : α) :
    List (String × List α) → List (String × List α)
  | [] => [(k, [x])]
  | (k', xs) :: rest =>
    if k' = k then (k', xs ++ [x]) :: rest else (k', xs) :: dictAppendItem k x rest

/-- `_group_by_category` (empty category folds to `"Core"`). -/
def group_by_category {α : Type} (cat : α → String) (items : List α) :
    List (String × List α) :=
  items.foldl
    (fun result item =>
      dictAppendItem (if cat item = "" then "Core" else cat item) item result)
    []

/-- Stable insertion into a name-sorted list (Python `sorted` is stable). -/
def insertByKey {α : Type} (key : α → String) (x : α) : List α → List α
  | [] => [x]
  | y :: ys =>
    if pyStrLt (key y) (key x) then y :: insertByKey key x ys else x :: y :: ys

/-- `sorted(items, key=...)`. -/
def sortByKey {α : Type} (key : α → String) : List α → List α
  | [] => []
  | x :: xs => insertByKey key x (sortByKey key xs)

/-- `if lines and lines[-1] == "": lines.pop()`. -/
def dropTrailingEmpty (lines : List String) : List String :=
  if lines ≠ [] ∧ lines.getLast? = some "" then lines.dropLast else lines

/-- `_generate_guid`: the MD5 digest of the name, formatted 4-2-2-2-6 in
uppercase hex. -/
def generate_guid (name : String) : String :=
  let hash_bytes := md5Digest (utf8Encode name)
  let b := fun i => hash_bytes.getD i 0
  byteHexUpper (b 0) ++ byteHexUpper (b 1) ++ byteHexUpper (b 2) ++
    byteHexUpper (b 3) ++ "-" ++
  byteHexUpper (b 4) ++ byteHexUpper (b 5) ++ "-" ++
  byteHexUpper (b 6) ++ byteHexUpper (b 7) ++ "-" ++
  byteHexUpper (b 8) ++ byteHexUpper (b 9) ++ "-" ++
  String.join (((hash_bytes.drop 10).take 6).map byteHexUpper)

/- ============================================================
   csharp_binding_generator.py : per-symbol rendering
   ============================================================ -/

/-- The `lines` list built by `_generate_method` (joined by the wrapper
below, as the source joins with `"\n"`). -/
def generate_method_lines (cfg : BindingGeneratorConfig) (method : ReflectedMethod)
    (cls : Option ReflectedClass) (indent : Nat) : List String :=
  let ind := indentStr indent
  let doc_lines :=
    if cfg.generate_documentation then
      let desc :=
        if method.description ≠ "" then method.description
        else method.name ++ " method"
      [ind ++ "/// <summary>", ind ++ "/// " ++ escape_xml desc,
       ind ++ "/// </summary>"]
      ++ method.parameters.map (fun param =>
          ind ++ "/// <param name=\"" ++ to_camel_case param.name ++
            "\">Parameter of type " ++ param.type_name ++ "</param>")
      ++ (if method.return_type.type_name ≠ "void" then
            [ind ++ "/// <returns>" ++ method.return_type.type_name ++ "</returns>"]
          else [])
    else []
  let obsolete_lines :=
    if cfg.mark_deprecated_as_obsolete ∧ method.is_deprecated then
      let msg :=
        if method.deprecation_message ≠ "" then method.deprecation_message
        else "This method is deprecated."
      [ind ++ "[Obsolete(\"" ++ msg ++ "\")]"]
    else []
  let static_str := if method.is_static then "static " else ""
  let return_type := get_csharp_type_name method.return_type.type_name
  let method_name := to_pascal_case method.name
  let param_list := joinSep ", " (method.parameters.map (fun param =>
    get_csharp_type_name param.type_name ++ " " ++
      make_safe_name (to_camel_case param.name)))
  let class_name := match cls with | some c => c.name | none => "Global"
  let internal_call := "NativeMethods." ++ class_name ++ "_" ++ method.name
  let args :=
    (if method.is_static = false ∧ cls.isSome then ["_nativeHandle"] else [])
    ++ method.parameters.map (fun p => make_safe_name (to_camel_case p.name))
  let args_str := joinSep ", " args
  let call_line :=
    if return_type = "void" then
      ind ++ "    " ++ internal_call ++ "(" ++ args_str ++ ");"
    else
      ind ++ "    return " ++ internal_call ++ "(" ++ args_str ++ ");"
  doc_lines ++ obsolete_lines ++
    [ind ++ "public " ++ static_str ++ return_type ++ " " ++ method_name ++
       "(" ++ param_list ++ ")",
     ind ++ "\x7b", call_line, ind ++ "\x7d"]

/-- `_generate_method`. -/
def generate_method (cfg : BindingGeneratorConfig) (method : ReflectedMethod)
    (cls : Option ReflectedClass) (indent : Nat) : String :=
  joinSep "\n" (generate_method_lines cfg method cls indent)

/-- `_generate_property`. -/
def generate_property (cfg : BindingGeneratorConfig) (prop : ReflectedProperty)
    (cls : Option ReflectedClass) (indent : Nat) : String :=
  let ind := indentStr indent
  let doc_lines :=
    if cfg.generate_documentation ∧ prop.description ≠ "" then
      [ind ++ "/// <summary>", ind ++ "/// " ++ escape_xml prop.description,
       ind ++ "/// </summary>"]
    else []
  let obsolete_lines :=
    if cfg.mark_deprecated_as_obsolete ∧ prop.is_deprecated then
      [ind ++ "[Obsolete(\"This property is deprecated.\")]"]
    else []
  let prop_type := get_csharp_type_name prop.value_type.type_name
  let prop_name := to_pascal_case prop.name
  let class_name := match cls with | some c => c.name | none => "Global"
  let getter_lines :=
    if prop.has_getter then
      [ind ++ "    get => NativeMethods." ++ class_name ++ "_Get" ++ prop.name ++
         "(_nativeHandle);"]
    else []
  let setter_lines :=
    if prop.has_setter then
      [ind ++ "    set => NativeMethods." ++ class_name ++ "_Set" ++ prop.name ++
         "(_nativeHandle, value);"]
    else []
  joinSep "\n" (doc_lines ++ obsolete_lines ++
    [ind ++ "public " ++ prop_type ++ " " ++ prop_name, ind ++ "\x7b"] ++
    getter_lines ++ setter_lines ++ [ind ++ "\x7d"])

/-- `_generate_constructor`. -/
def generate_constructor (_cfg : BindingGeneratorConfig) (ctor : ReflectedMethod)
    (cls : ReflectedClass) (indent : Nat) : String :=
  let ind := indentStr indent
  let class_name := make_safe_name cls.name
  let param_list := joinSep ", " (ctor.parameters.map (fun param =>
    get_csharp_type_name param.type_name ++ " " ++
      make_safe_name (to_camel_case param.name)))
  let args_str := joinSep ", "
    (ctor.parameters.map (fun p => make_safe_name (to_camel_case p.name)))
  joinSep "\n"
    [ind ++ "public " ++ class_name ++ "(" ++ param_list ++ ")",
     ind ++ "\x7b",
     ind ++ "    _nativeHandle = NativeMethods." ++ cls.name ++ "_Create(" ++
       args_str ++ ");",
     ind ++ "\x7d"]

/-- The `lines` list built by `_generate_class`. -/
def generate_class_lines (cfg : BindingGeneratorConfig) (cls : ReflectedClass)
    (indent : Nat) : List String :=
  let ind := indentStr indent
  let doc_lines :=
    if cfg.generate_documentation ∧ cls.description ≠ "" then
      [ind ++ "/// <summary>", ind ++ "/// " ++ escape_xml cls.description,
       ind ++ "/// </summary>"]
    else []
  let obsolete_lines :=
    if cfg.mark_deprecated_as_obsolete ∧ cls.is_deprecated then
      [ind ++ "[Obsolete(\"This class is deprecated.\")]"]
    else []
  let partial_str := if cfg.generate_partial_classes then "partial " else ""
  let class_name := make_safe_name cls.name
  let base_clause :=
    if cls.base_classes ≠ [] then
      " : " ++ get_csharp_type_name (cls.base_classes.headD "")
    else ""
  let members :=
    cls.constructors.flatMap (fun c => [generate_constructor cfg c cls (indent + 1), ""])
    ++ cls.properties.flatMap (fun p => [generate_property cfg p (some cls) (indent + 1), ""])
    ++ cls.methods.flatMap (fun m => [generate_method cfg m (some cls) (indent + 1), ""])
  let all := doc_lines ++ obsolete_lines ++
    [ind ++ "public " ++ partial_str ++ "class " ++ class_name ++ base_clause,
     ind ++ "\x7b",
     ind ++ "    private IntPtr _nativeHandle;", ""] ++ members
  dropTrailingEmpty all ++ [ind ++ "\x7d"]

/-- `_generate_class`. -/
def generate_class (cfg : BindingGeneratorConfig) (cls : ReflectedClass)
    (indent : Nat) : String :=
  joinSep "\n" (generate_class_lines cfg cls indent)

/-- `_generate_ebus_event`. -/
def generate_ebus_event (_cfg : BindingGeneratorConfig) (event : ReflectedEBusEvent)
    (ebus : ReflectedEBus) (indent : Nat) : String :=
  let ind := indentStr indent
  let return_type := get_csharp_type_name event.return_type.type_name
  let method_name := to_pascal_case event.name
  let addr_params :=
    if event.is_broadcast = false ∧ ebus.address_type.isSome then
      [get_csharp_type_name ((ebus.address_type.getD voidParameter).type_name) ++
         " address"]
    else []
  let param_list := joinSep ", " (addr_params ++
    event.parameters.map (fun param =>
      get_csharp_type_name param.type_name ++ " " ++
        make_safe_name (to_camel_case param.name)))
  let sig_line :=
    if event.is_broadcast then
      ind ++ "public static " ++ return_type ++ " Broadcast" ++ method_name ++
        "(" ++ param_list ++ ")"
    else
      ind ++ "public static " ++ return_type ++ " Event" ++ method_name ++
        "(" ++ param_list ++ ")"
  let args :=
    (if event.is_broadcast then [] else ["address"]) ++
    event.parameters.map (fun p => make_safe_name (to_camel_case p.name))
  let args_str := joinSep ", " args
  let internal_method := "NativeMethods." ++ ebus.name ++ "_" ++ event.name
  let call_line :=
    if return_type = "void" then
      ind ++ "    " ++ internal_method ++ "(" ++ args_str ++ ");"
    else
      ind ++ "    return " ++ internal_method ++ "(" ++ args_str ++ ");"
  joinSep "\n" [sig_line, ind ++ "\x7b", call_line, ind ++ "\x7d"]

/-- `_generate_ebus`. -/
def generate_ebus (cfg : BindingGeneratorConfig) (ebus : ReflectedEBus)
    (indent : Nat) : String :=
  let ind := indentStr indent
  let doc_lines :=
    if cfg.generate_documentation ∧ ebus.description ≠ "" then
      [ind ++ "/// <summary>", ind ++ "/// " ++ escape_xml ebus.description,
       ind ++ "/// </summary>"]
    else []
  let ebus_name := make_safe_name ebus.name
  let events :=
    ebus.events.flatMap (fun e => [generate_ebus_event cfg e ebus (indent + 1), ""])
  let all := doc_lines ++
    [ind ++ "public static class " ++ ebus_name, ind ++ "\x7b"] ++ events
  joinSep "\n" (dropTrailingEmpty all ++ [ind ++ "\x7d"])

/-- `_generate_internal_call_signature`. -/
def generate_internal_call_signature (method : ReflectedMethod)
    (cls : Option ReflectedClass) : String :=
  let return_type := get_csharp_type_name method.return_type.type_name
  let class_name := match cls with | some c => c.name | none => "Global"
  let method_name := class_name ++ "_" ++ method.name
  let params :=
    (if method.is_static = false ∧ cls.isSome then ["IntPtr instance"] else [])
    ++ method.parameters.map (fun param =>
        get_csharp_type_name param.type_name ++ " " ++
          make_safe_name (to_camel_case param.name))
  let param_list := joinSep ", " params
  "[MethodImpl(MethodImplOptions.InternalCall)] internal static extern " ++
    return_type ++ " " ++ method_name ++ "(" ++ param_list ++ ");"

/- ============================================================
   csharp_binding_generator.py : file generation
   ============================================================ -/

/-- `_generate_classes_file` (returns the appended `GeneratedFile`s). -/
def generate_classes_file (cfg : BindingGeneratorConfig) (now : String)
    (output_subdir category : String) (classes : List ReflectedClass)
    (is_core : Bool) (gem_name : String) : List GeneratedFile :=
  if classes = [] then []
  else
    let ns0 := if is_core then cfg.core_namespace else get_gem_namespace cfg gem_name
    let ns :=
      if category ≠ "" ∧ category ≠ "Core" then ns0 ++ "." ++ to_pascal_case category
      else ns0
    let sorted_classes := sortByKey (·.name) classes
    let class_blocks :=
      List.intersperse "" (sorted_classes.map (fun c => generate_class cfg c 1))
    let content :=
      [generate_file_header cfg now, "", generate_usings, "",
       "namespace " ++ ns, "\x7b"] ++ class_blocks ++ ["\x7d"]
    let filename := get_category_filename category ++ ".cs"
    let relative_path :=
      if output_subdir ≠ "" then output_subdir ++ "/" ++ filename else filename
    [mkGeneratedFile relative_path (joinSep "\n" content)]

/-- `_generate_ebus_file`. -/
def generate_ebus_file (cfg : BindingGeneratorConfig) (now : String)
    (output_subdir category : String) (ebuses : List ReflectedEBus)
    (is_core : Bool) (gem_name : String) : List GeneratedFile :=
  if ebuses = [] then []
  else
    let ns0 := if is_core then cfg.core_namespace else get_gem_namespace cfg gem_name
    let ns :=
      if category ≠ "" ∧ category ≠ "Core" then ns0 ++ "." ++ to_pascal_case category
      else ns0
    let sorted_ebuses := sortByKey (·.name) ebuses
    let ebus_blocks :=
      List.intersperse "" (sorted_ebuses.map (fun e => generate_ebus cfg e 1))
    let content :=
      [generate_file_header cfg now, "", generate_usings, "",
       "namespace " ++ ns ++ ".EBus", "\x7b"] ++ ebus_blocks ++ ["\x7d"]
    let filename := get_category_filename category ++ ".EBus.cs"
    let relative_path :=
      if output_subdir ≠ "" then output_subdir ++ "/" ++ filename else filename
    [mkGeneratedFile relative_path (joinSep "\n" content)]

/-- `_generate_internal_calls_file`. -/
def generate_internal_calls_file (cfg : BindingGeneratorConfig) (now : String)
    (reflection_data : ReflectionData) : GeneratedFile :=
  let decls :=
    (sortByKey (·.name) reflection_data.classes).flatMap (fun cls =>
      cls.methods.map (fun m =>
        "        " ++ generate_internal_call_signature m (some cls)))
  let content :=
    [generate_file_header cfg now, "",
     "using System;", "using System.Runtime.CompilerServices;",
     "using System.Runtime.InteropServices;", "",
     "namespace " ++ cfg.root_namespace ++ ".Internal", "\x7b",
     "    /// <summary>", "    /// Internal calls to native O3DE methods.",
     "    /// These are registered by the O3DESharp native module via Coral.",
     "    /// </summary>", "    internal static class NativeMethods",
     "    \x7b"] ++ decls ++ ["    \x7d", "\x7d"]
  mkGeneratedFile "InternalCalls.cs" (joinSep "\n" content)

/-- `_generate_project_file`. -/
def generate_project_file (cfg : BindingGeneratorConfig)
    (output_subdir project_name : String) (dependencies : List String) :
    GeneratedFile :=
  let dep_lines :=
    if dependencies ≠ [] then
      ["  <ItemGroup>"] ++
      dependencies.map (fun dep =>
        "    <ProjectReference Include=\"../" ++ get_safe_filename dep ++ "/" ++
          get_safe_filename dep ++ ".csproj\" />") ++
      ["  </ItemGroup>", ""]
    else []
  let content :=
    ["<Project Sdk=\"Microsoft.NET.Sdk\">", "", "  <PropertyGroup>",
     "    <TargetFramework>" ++ cfg.target_framework ++ "</TargetFramework>",
     "    <ImplicitUsings>enable</ImplicitUsings>", "    <Nullable>enable</Nullable>",
     "    <AssemblyName>" ++ get_safe_filename project_name ++ "</AssemblyName>",
     "    <RootNamespace>" ++ get_gem_namespace cfg project_name ++ "</RootNamespace>",
     "  </PropertyGroup>", ""] ++
    dep_lines ++
    ["  <ItemGroup>", "    <Reference Include=\"O3DE.Sharp.Core\">",
     "      <HintPath>$(O3DESharpCorePath)/O3DE.Sharp.Core.dll</HintPath>",
     "    </Reference>", "  </ItemGroup>", "", "</Project>"]
  let filename := get_safe_filename project_name ++ ".csproj"
  let relative_path :=
    if output_subdir ≠ "" then output_subdir ++ "/" ++ filename else filename
  mkGeneratedFile relative_path (joinSep "\n" content)

/-- `_generate_assembly_info`. -/
def generate_assembly_info (cfg : BindingGeneratorConfig) (now : String)
    (output_subdir gem_name : String) (gem_descriptor : Option GemDescriptor) :
    GeneratedFile :=
  let display_name :=
    match gem_descriptor with | some d => d.display_name | none => gem_name
  let summary_lines :=
    match gem_descriptor with
    | some d =>
      if d.summary ≠ "" then
        ["[assembly: AssemblyDescription(\"" ++ d.summary ++ "\")]"]
      else []
    | none => []
  let version := match gem_descriptor with | some d => d.version | none => "1.0.0"
  let content :=
    [generate_file_header cfg now, "",
     "using System.Reflection;", "using System.Runtime.CompilerServices;",
     "using System.Runtime.InteropServices;", "",
     "[assembly: AssemblyTitle(\"" ++ display_name ++ "\")]"] ++
    summary_lines ++
    ["[assembly: AssemblyVersion(\"" ++ version ++ "\")]",
     "[assembly: AssemblyFileVersion(\"" ++ version ++ "\")]",
     "[assembly: ComVisible(false)]"]
  let relative_path :=
    if output_subdir ≠ "" then output_subdir ++ "/AssemblyInfo.cs"
    else "AssemblyInfo.cs"
  mkGeneratedFile relative_path (joinSep "\n" content)

/-- `_generate_solution_files` (`gem_stats_names` is `self._gem_stats.keys()`
in insertion order; the `gem_resolver` parameter is unused in the source). -/
def generate_solution_files (cfg : BindingGeneratorConfig)
    (gem_stats_names : List String) : GeneratedFile :=
  let core_projects :=
    if cfg.generate_core_bindings then
      [("O3DE.Core", cfg.core_output_subdir ++ "/O3DE.Core.csproj",
        generate_guid "O3DE.Core")]
    else []
  let gem_projects := gem_stats_names.map (fun gem_name =>
    let fn := get_safe_filename gem_name
    (gem_name, fn ++ "/" ++ fn ++ ".csproj", generate_guid gem_name))
  let projects := core_projects ++ gem_projects
  let project_lines := projects.flatMap (fun p =>
    ["Project(\"\x7bFAE04EC0-301F-11D3-BF4B-00C04F79EFBC\x7d\") = \"" ++ p.1 ++
       "\", \"" ++ p.2.1 ++ "\", \"\x7b" ++ p.2.2 ++ "\x7d\"",
     "EndProject"])
  let cfg_lines := projects.flatMap (fun p =>
    ["        \x7b" ++ p.2.2 ++ "\x7d.Debug|Any CPU.ActiveCfg = Debug|Any CPU",
     "        \x7b" ++ p.2.2 ++ "\x7d.Debug|Any CPU.Build.0 = Debug|Any CPU",
     "        \x7b" ++ p.2.2 ++ "\x7d.Release|Any CPU.ActiveCfg = Release|Any CPU",
     "        \x7b" ++ p.2.2 ++ "\x7d.Release|Any CPU.Build.0 = Release|Any CPU"])
  let content :=
    ["", "Microsoft Visual Studio Solution File, Format Version 12.00",
     "# Visual Studio Version 17", "VisualStudioVersion = 17.0.31903.59",
     "MinimumVisualStudioVersion = 10.0.40219.1"] ++
    project_lines ++
    ["Global",
     "    GlobalSection(SolutionConfigurationPlatforms) = preSolution",
     "        Debug|Any CPU = Debug|Any CPU",
     "        Release|Any CPU = Release|Any CPU",
     "    EndGlobalSection",
     "    GlobalSection(ProjectConfigurationPlatforms) = postSolution"] ++
    cfg_lines ++
    ["    EndGlobalSection", "EndGlobal"]
  mkGeneratedFile (cfg.solution_name ++ ".sln") (joinSep "\n" content)

/- ============================================================
   csharp_binding_generator.py : pipeline
   ============================================================ -/

/-- `_is_core_class`. -/
def is_core_class (cfg : BindingGeneratorConfig) (cls : ReflectedClass) : Bool :=
  if cfg.core_categories.contains cls.category then true
  else if cfg.core_prefixes.any (fun p => pyStartsWith cls.name p) then true
  else if cls.source_gem_name = "" ∨ cls.source_gem_name = "O3DE.Core" then true
  else false

/-- `_is_core_ebus`. -/
def is_core_ebus (cfg : BindingGeneratorConfig) (ebus : ReflectedEBus) : Bool :=
  if cfg.core_categories.contains ebus.category then true
  else if cfg.core_prefixes.any (fun p => pyStartsWith ebus.name p) then true
  else if ebus.source_gem_name = "" ∨ ebus.source_gem_name = "O3DE.Core" then true
  else false

/-- `_resolve_gem_sources`: annotate, in place, every class and ebus that
still lacks a `source_gem_name`. -/
def resolve_gem_sources (reflection_data : ReflectionData)
    (gem_resolver : GemDependencyResolver) : ReflectionData :=
  { reflection_data with
    classes := reflection_data.classes.map (fun cls =>
      if cls.source_gem_name = "" then
        { cls with source_gem_name :=
            resolve_gem_for_class gem_resolver cls.name cls.category }
      else cls)
    ebuses := reflection_data.ebuses.map (fun ebus =>
      if ebus.source_gem_name = "" then
        { ebus with source_gem_name :=
            resolve_gem_for_class gem_resolver ebus.name ebus.category }
      else ebus) }

/-- `_generate_core_bindings` (returns the appended files and the
class/ebus counts recorded in the partial result). -/
def generate_core_bindings (cfg : BindingGeneratorConfig) (now : String)
    (reflection_data : ReflectionData) : List GeneratedFile × Nat × Nat :=
  let core_classes := reflection_data.classes.filter (is_core_class cfg)
  let core_ebuses := reflection_data.ebuses.filter (is_core_ebus cfg)
  let classes_by_category := group_by_category (·.category) core_classes
  let ebuses_by_category := group_by_category (·.category) core_ebuses
  let class_files := classes_by_category.flatMap (fun p =>
    generate_classes_file cfg now cfg.core_output_subdir p.1 p.2 true "")
  let ebus_files :=
    if cfg.generate_ebus_wrappers then
      ebuses_by_category.flatMap (fun p =>
        generate_ebus_file cfg now cfg.core_output_subdir p.1 p.2 true "")
    else []
  let project_files :=
    if cfg.generate_per_gem_projects ∨ cfg.generate_combined_assembly then
      [generate_project_file cfg cfg.core_output_subdir "O3DE.Core" []]
    else []
  (class_files ++ ebus_files ++ project_files,
   core_classes.length, core_ebuses.length)

/-- `_process_gem`: the appended files, the stats record, and whether the
stats were recorded in `self._gem_stats` (the source returns early, before
recording, when the gem owns no non-core symbol). -/
def process_gem (cfg : BindingGeneratorConfig) (now : String) (gem_name : String)
    (reflection_data : ReflectionData) (gem_resolver : GemDependencyResolver) :
    List GeneratedFile × GemBindingStats × Bool :=
  let gem_classes := reflection_data.classes.filter (fun cls =>
    cls.source_gem_name == gem_name && !(is_core_class cfg cls))
  let gem_ebuses := reflection_data.ebuses.filter (fun ebus =>
    ebus.source_gem_name == gem_name && !(is_core_ebus cfg ebus))
  if gem_classes = [] ∧ gem_ebuses = [] then
    ([], { gem_name := gem_name }, false)
  else
    let classes_by_category := group_by_category (·.category) gem_classes
    let ebuses_by_category := group_by_category (·.category) gem_ebuses
    let output_subdir :=
      if cfg.separate_gem_directories then get_safe_filename gem_name else ""
    let class_files := classes_by_category.flatMap (fun p =>
      generate_classes_file cfg now output_subdir p.1 p.2 false gem_name)
    let classes_generated := classes_by_category.foldl (fun a p => a + p.2.length) 0
    let ebus_files :=
      if cfg.generate_ebus_wrappers then
        ebuses_by_category.flatMap (fun p =>
          generate_ebus_file cfg now output_subdir p.1 p.2 false gem_name)
      else []
    let ebuses_generated :=
      if cfg.generate_ebus_wrappers then
        ebuses_by_category.foldl (fun a p => a + p.2.length) 0
      else 0
    let project_files :=
      if cfg.generate_per_gem_projects then
        let gem_descriptor := get_gem gem_resolver gem_name
        let dependencies := get_gem_dependencies gem_resolver gem_name false
        [generate_project_file cfg output_subdir gem_name dependencies,
         generate_assembly_info cfg now output_subdir gem_name gem_descriptor]
      else []
    let files := class_files ++ ebus_files ++ project_files
    let stats : GemBindingStats :=
      { gem_name := gem_name
        classes_generated := classes_generated
        ebuses_generated := ebuses_generated
        files_generated := files.length
        generated_files := files.map (·.relative_path) }
    (files, stats, true)

/-- `_get_gems_to_process`. -/
def get_gems_to_process (cfg : BindingGeneratorConfig)
    (gem_resolver : GemDependencyResolver) : List String :=
  let gems :=
    if cfg.include_gems ≠ [] then cfg.include_gems
    else get_active_gem_names gem_resolver
  if cfg.include_gem_dependencies then
    gems.foldl
      (fun ordered_gems gem_name =>
        let deps := get_gem_dependencies gem_resolver gem_name true
        let ordered_gems := deps.foldl
          (fun acc dep => if dep ∈ acc then acc else acc ++ [dep]) ordered_gems
        if gem_name ∈ ordered_gems then ordered_gems
        else ordered_gems ++ [gem_name])
      []
  else gems

/-- `_should_process_gem`. -/
def should_process_gem (cfg : BindingGeneratorConfig) (gem_name : String) : Bool :=
  if cfg.exclude_gems ≠ [] ∧ gem_name ∈ cfg.exclude_gems then false
  else if cfg.include_gems ≠ [] then decide (gem_name ∈ cfg.include_gems)
  else true

/-- `_generate_gem_bindings`: files, per-gem stats, processed gems, the
`_gem_stats` dict keys, and class/ebus counts. -/
def generate_gem_bindings (cfg : BindingGeneratorConfig) (now : String)
    (reflection_data : ReflectionData) (gem_resolver : GemDependencyResolver) :
    List GeneratedFile × List GemBindingStats × List String × List String ×
      Nat × Nat :=
  let gems_to_process := get_gems_to_process cfg gem_resolver
  gems_to_process.foldl
    (fun acc gem_name =>
      if !(should_process_gem cfg gem_name) then acc
      else
        let (files, stats, recorded) :=
          process_gem cfg now gem_name reflection_data gem_resolver
        (acc.1 ++ files, acc.2.1 ++ [stats], acc.2.2.1 ++ [gem_name],
         acc.2.2.2.1 ++ (if recorded then [gem_name] else []),
         acc.2.2.2.2.1 + stats.classes_generated,
         acc.2.2.2.2.2 + stats.ebuses_generated))
    ([], [], [], [], 0, 0)

/-- `generate_from_reflection_data`: the result record and the
`_generated_files` list, as a pure function of the inputs and of the
`datetime.now()` timestamp `now`. -/
def generate_from_reflection_data (cfg : BindingGeneratorConfig)
    (reflection_data : ReflectionData)
    (gem_resolver : Option GemDependencyResolver) (now : String) :
    BindingGeneratorResult × List GeneratedFile :=
  let data :=
    match gem_resolver with
    | some r =>
      if cfg.generate_gem_bindings then resolve_gem_sources reflection_data r
      else reflection_data
    | none => reflection_data
  let core :=
    if cfg.generate_core_bindings then generate_core_bindings cfg now data
    else ([], 0, 0)
  let gem :=
    match gem_resolver with
    | some r =>
      if cfg.generate_gem_bindings then generate_gem_bindings cfg now data r
      else ([], [], [], [], 0, 0)
    | none => ([], [], [], [], 0, 0)
  let internal_calls := generate_internal_calls_file cfg now data
  let solution_files :=
    if cfg.generate_solution then [generate_solution_files cfg gem.2.2.2.1]
    else []
  let files := core.1 ++ gem.1 ++ [internal_calls] ++ solution_files
  let result : BindingGeneratorResult :=
    { success := true
      classes_generated := core.2.1 + gem.2.2.2.2.1
      ebuses_generated := core.2.2 + gem.2.2.2.2.2
      per_gem_stats := gem.2.1
      processed_gems := gem.2.2.1
      files_written := files.length
      generated_files := files.map (·.relative_path) }
  (result, files)

/-- One iteration of the `write_files` loop: skip when the file exists,
overwriting is disabled, and the on-disk MD5 equals the record's checksum;
otherwise write and count. -/
def write_files_step (cfg : BindingGeneratorConfig)
    (acc : List (String × String) × Nat) (generated_file : GeneratedFile) :
    List (String × String) × Nat :=
  let file_path := cfg.output_directory ++ "/" ++ generated_file.relative_path
  let skip : Bool :=
    match dictGet file_path acc.1 with
    | some existing_content =>
      !cfg.overwrite_existing &&
        (md5HexOfString existing_content == generated_file.checksum)
    | none => false
  if skip then acc
  else (dictInsert file_path generated_file.content acc.1, acc.2 + 1)

/-- `write_files`, over an abstract filesystem mapping full paths to file
contents; returns the new filesystem and the `files_written` count. -/
def write_files (cfg : BindingGeneratorConfig) (generated_files : List GeneratedFile)
    (fs : List (String × String)) : List (String × String) × Nat :=
  if !cfg.write_to_disk then (fs, 0)
  else generated_files.foldl (write_files_step cfg) (fs, 0)

/- ============================================================
   Claim C4 : explicit class mappings win
   ============================================================ -/

/-- C4: for every resolver state, class name and category, once an explicit
mapping `class_name -> gem_name` has been registered through
`register_class_mapping`, `resolve_gem_for_class` returns exactly that gem
name, overriding every category hint, prefix hint, configured lookup table
and the default. -/
theorem c4_explicit_mapping_overrides (r : GemDependencyResolver)
    (class_name gem_name category : String) :
    resolve_gem_for_class (register_class_mapping r class_name gem_name)
      class_name category = gem_name := by
  simp [resolve_gem_for_class, register_class_mapping, dictGet_dictInsert_self]

/- ============================================================
   Claim C10 : exclusion beats inclusion
   ============================================================ -/

/-- C10: a gem name appearing in both the exclude and the include list is
rejected by `should_generate_bindings`, and a gem name in both configured
lists is rejected by `_should_process_gem`; both check exclusion first. -/
theorem c10_exclude_wins (r : GemDependencyResolver)
    (cfg : BindingGeneratorConfig) (gem_name : String)
    (include_list exclude_list : List String)
    (h1 : gem_name ∈ exclude_list) (h2 : gem_name ∈ include_list)
    (h3 : gem_name ∈ cfg.exclude_gems) (h4 : gem_name ∈ cfg.include_gems) :
    should_generate_bindings r gem_name include_list exclude_list = false ∧
      should_process_gem cfg gem_name = false := by
  constructor
  · simp [should_generate_bindings, List.ne_nil_of_mem h1, h1]
  · simp [should_process_gem, List.ne_nil_of_mem h3, h3]

theorem c10_exclude_wins_witness :
    ("PhysX" ∈ ["PhysX"]) ∧ ("PhysX" ∈ ["PhysX", "Atom"]) ∧
    ("PhysX" ∈ ({ exclude_gems := ["PhysX"], include_gems := ["PhysX", "Atom"] } :
        BindingGeneratorConfig).exclude_gems) ∧
    ("PhysX" ∈ ({ exclude_gems := ["PhysX"], include_gems := ["PhysX", "Atom"] } :
        BindingGeneratorConfig).include_gems) ∧
    (should_generate_bindings resolver_init "PhysX" ["PhysX", "Atom"] ["PhysX"] = false ∧
      should_process_gem
        { exclude_gems := ["PhysX"], include_gems := ["PhysX", "Atom"] } "PhysX" = false) :=
  ⟨by decide, by decide, by decide, by decide,
   c10_exclude_wins resolver_init
     { exclude_gems := ["PhysX"], include_gems := ["PhysX", "Atom"] }
     "PhysX" ["PhysX", "Atom"] ["PhysX"]
     (by decide) (by decide) (by decide) (by decide)⟩

/- ============================================================
   Claim C9 : dependents queries and graph invalidation
   ============================================================ -/

/-- C9 (code bug): `register_gem` does clear `_graph_built`, but
`get_gem_dependents` never rebuilds the graph, so it answers from the stale
`dependents` lists.  Concretely: with GemA registered and GemB declaring a
dependency on GemA, `get_gem_dependents("GemA")` returns `[]` before any
ordering call; after an ordering call builds the graph it returns
`["GemB"]`; registering GemC (which also depends on GemA) leaves the answer
at the stale `["GemB"]` even though GemC's edge is declared; only another
ordering call refreshes it to `["GemB", "GemC"]`. -/
theorem c9_dependents_stale :
    get_gem_dependents
        (register_gem (register_gem resolver_init { name := "GemA" })
          { name := "GemB", dependencies := ["GemA"] })
        "GemA" true = [] ∧
    get_gem_dependents
        ((get_gems_in_dependency_order
          (register_gem (register_gem resolver_init { name := "GemA" })
            { name := "GemB", dependencies := ["GemA"] })).2)
        "GemA" true = ["GemB"] ∧
    (findGem
        (register_gem
          ((get_gems_in_dependency_order
            (register_gem (register_gem resolver_init { name := "GemA" })
              { name := "GemB", dependencies := ["GemA"] })).2)
          { name := "GemC", dependencies := ["GemA"] }).gems
        "GemC").map (·.dependencies) = some ["GemA"] ∧
    get_gem_dependents
        (register_gem
          ((get_gems_in_dependency_order
            (register_gem (register_gem resolver_init { name := "GemA" })
              { name := "GemB", dependencies := ["GemA"] })).2)
          { name := "GemC", dependencies := ["GemA"] })
        "GemA" true = ["GemB"] ∧
    get_gem_dependents
        ((get_gems_in_dependency_order
          (register_gem
            ((get_gems_in_dependency_order
              (register_gem (register_gem resolver_init { name := "GemA" })
                { name := "GemB", dependencies := ["GemA"] })).2)
            { name := "GemC", dependencies := ["GemA"] })).2)
        "GemA" true = ["GemB", "GemC"] := by
  decide

/- ============================================================
   Claim C6 : ownership resolution is idempotent
   ============================================================ -/

/-- C6: running `_resolve_gem_sources` twice over the same `ReflectionData`
with the same resolver state produces exactly the state reached after one
run: the second pass changes no `source_gem_name` annotation, because
resolution skips entities that already carry a non-empty annotation (and
recomputes the identical value for the ones annotated with `""`). -/
theorem c6_resolution_idempotent (reflection_data : ReflectionData)
    (gem_resolver : GemDependencyResolver) :
    resolve_gem_sources (resolve_gem_sources reflection_data gem_resolver)
        gem_resolver =
      resolve_gem_sources reflection_data gem_resolver := by
  simp only [resolve_gem_sources, List.map_map]
  refine congrArg₂ (fun a b => ReflectionData.mk a b reflection_data.global_methods
    reflection_data.global_properties) ?_ ?_
  · refine List.map_congr_left (fun c _ => ?_)
    by_cases h : c.source_gem_name = ""
    · simp only [Function.comp_apply, h, if_pos]
      by_cases h2 : resolve_gem_for_class gem_resolver c.name c.category = ""
      · simp [h2]
      · simp [h2]
    · simp [Function.comp_apply, h]
  · refine List.map_congr_left (fun e _ => ?_)
    by_cases h : e.source_gem_name = ""
    · simp only [Function.comp_apply, h, if_pos]
      by_cases h2 : resolve_gem_for_class gem_resolver e.name e.category = ""
      · simp [h2]
      · simp [h2]
    · simp [Function.comp_apply, h]

/- ============================================================
   Claim C7 : deprecated symbols carry Obsolete annotations
   ============================================================ -/

theorem mem_dropTrailingEmpty {x : String} {l : List String}
    (h : x ∈ l) (hx : x ≠ "") : x ∈ dropTrailingEmpty l := by
  unfold dropTrailingEmpty
  split
  · next hcond =>
    obtain ⟨hne, hlast⟩ := hcond
    have hdecomp := List.dropLast_append_getLast hne
    rw [← hdecomp] at h
    rcases List.mem_append.1 h with h' | h'
    · exact h'
    · exfalso
      apply hx
      have hg : l.getLast hne = "" := by
        have h1 := List.getLast?_eq_getLast l hne
        rw [h1] at hlast
        exact Option.some.inj hlast
      simp only [List.mem_singleton] at h'
      rw [h', hg]
  · exact h

/-- C7: with deprecation marking enabled, a deprecated method renders an
`[Obsolete("...")]` line whose message is the caller-supplied
`deprecation_message` verbatim when non-empty and the generic default
otherwise, and a deprecated class renders the generic class default
message (a `ReflectedClass` carries no per-class message field). -/
theorem c7_obsolete_annotations (cfg : BindingGeneratorConfig)
    (method : ReflectedMethod) (cls_opt : Option ReflectedClass)
    (cls : ReflectedClass) (indent : Nat)
    (hmark : cfg.mark_deprecated_as_obsolete = true)
    (hm : method.is_deprecated = true) (hc : cls.is_deprecated = true) :
    (indentStr indent ++ "[Obsolete(\"" ++
        (if method.deprecation_message ≠ "" then method.deprecation_message
         else "This method is deprecated.") ++ "\")]")
      ∈ generate_method_lines cfg method cls_opt indent ∧
    (indentStr indent ++ "[Obsolete(\"This class is deprecated.\")]")
      ∈ generate_class_lines cfg cls indent := by
  constructor
  · simp only [generate_method_lines, hmark, hm]
    simp
  · simp only [generate_class_lines, hmark, hc]
    apply List.mem_append_left
    apply mem_dropTrailingEmpty
    · simp
    · intro hcontra
      have hlen := congrArg String.length hcontra
      rw [String.length_append] at hlen
      have hpos : 0 < "[Obsolete(\"This class is deprecated.\")]".length := by decide
      simp only [String.length_empty] at hlen
      omega

theorem c7_obsolete_annotations_witness :
    (({} : BindingGeneratorConfig).mark_deprecated_as_obsolete = true) ∧
    (({ name := "old_method", is_deprecated := true,
        deprecation_message := "Use NewMethod instead." } :
        ReflectedMethod).is_deprecated = true) ∧
    (({ name := "Widget", is_deprecated := true } :
        ReflectedClass).is_deprecated = true) ∧
    ((indentStr 1 ++ "[Obsolete(\"" ++
        (if ({ name := "old_method", is_deprecated := true,
               deprecation_message := "Use NewMethod instead." } :
               ReflectedMethod).deprecation_message ≠ "" then
           ({ name := "old_method", is_deprecated := true,
              deprecation_message := "Use NewMethod instead." } :
              ReflectedMethod).deprecation_message
         else "This method is deprecated.") ++ "\")]")
      ∈ generate_method_lines {}
          { name := "old_method", is_deprecated := true,
            deprecation_message := "Use NewMethod instead." } none 1 ∧
     (indentStr 1 ++ "[Obsolete(\"This class is deprecated.\")]")
      ∈ generate_class_lines {} { name := "Widget", is_deprecated := true } 1) :=
  ⟨rfl, rfl, rfl,
   c7_obsolete_annotations {}
     { name := "old_method", is_deprecated := true,
       deprecation_message := "Use NewMethod instead." }
     none { name := "Widget", is_deprecated := true } 1 rfl rfl rfl⟩

/- ============================================================
   Claim C5 : range of ownership resolution
   ============================================================ -/

/-- Every value `resolve_gem_for_class` can return is recognized by
`has_gem`, or drawn from one of the three configured mapping tables, or is
the configured default. -/
theorem resolve_gem_for_class_range (r : GemDependencyResolver)
    (class_name category : String) :
    has_gem r (resolve_gem_for_class r class_name category) = true ∨
    resolve_gem_for_class r class_name category ∈ r.class_mappings.map (·.2) ∨
    resolve_gem_for_class r class_name category ∈
      r.mapping_config.category_mappings.map (·.2) ∨
    resolve_gem_for_class r class_name category ∈
      r.mapping_config.prefix_mappings.map (·.2) ∨
    resolve_gem_for_class r class_name category =
      r.mapping_config.default_gem_name := by
  unfold resolve_gem_for_class
  cases hm : dictGet class_name r.class_mappings with
  | some g =>
    right; left
    simpa using dictGet_mem_values hm
  | none =>
    dsimp only
    by_cases h2 : (r.mapping_config.use_category_attribute = true) ∧ category ≠ ""
    · rw [if_pos h2]
      by_cases h3 : extract_gem_hint_from_category r category ≠ "" ∧
          has_gem r (extract_gem_hint_from_category r category) = true
      · rw [if_pos h3]
        left; exact h3.2
      · rw [if_neg h3]
        cases hcat : dictGet category r.mapping_config.category_mappings with
        | some g =>
          right; right; left
          simpa using dictGet_mem_values hcat
        | none =>
          dsimp only
          by_cases h4 : r.mapping_config.use_name_prefixes = true
          · rw [if_pos h4]
            by_cases h5 : extract_gem_hint_from_class_name r class_name ≠ "" ∧
                has_gem r (extract_gem_hint_from_class_name r class_name) = true
            · rw [if_pos h5]
              left; exact h5.2
            · rw [if_neg h5]
              cases hp : r.mapping_config.prefix_mappings.find?
                  (fun p => pyStartsWith class_name p.1) with
              | some p =>
                right; right; right; left
                exact List.mem_map.2 ⟨p, List.mem_of_find?_eq_some hp, rfl⟩
              | none =>
                right; right; right; right; rfl
          · rw [if_neg h4]
            right; right; right; right; rfl
    · rw [if_neg h2]
      dsimp only
      by_cases h4 : r.mapping_config.use_name_prefixes = true
      · rw [if_pos h4]
        by_cases h5 : extract_gem_hint_from_class_name r class_name ≠ "" ∧
            has_gem r (extract_gem_hint_from_class_name r class_name) = true
        · rw [if_pos h5]
          left; exact h5.2
        · rw [if_neg h5]
          cases hp : r.mapping_config.prefix_mappings.find?
              (fun p => pyStartsWith class_name p.1) with
          | some p =>
            right; right; right; left
            exact List.mem_map.2 ⟨p, List.mem_of_find?_eq_some hp, rfl⟩
          | none =>
            right; right; right; right; rfl
      · rw [if_neg h4]
        right; right; right; right; rfl

/-- C5 fails as stated: on a fresh resolver (no registered gems, default
configuration), a class named `Foo` with category `Math` is annotated with
`AzCore` by the configured category table, which is neither a registered
gem name nor the configured default `O3DE.Core`. -/
theorem c5_counterexample :
    ¬ (∀ c ∈ (resolve_gem_sources
          { classes := [{ name := "Foo", category := "Math" }] }
          resolver_init).classes,
        c.source_gem_name ∈ resolver_init.gems.map (·.name) ∨
          c.source_gem_name = resolver_init.mapping_config.default_gem_name) := by
  decide

/-- C5 as amended: after the ownership pass, every class and bus annotation
is its prior non-empty annotation, or a name the resolver recognizes
(`has_gem`: a registered name or normalized alias), or a value of one of
the configured mapping tables, or the configured default. -/
theorem c5_amended_annotation_range (reflection_data : ReflectionData)
    (r : GemDependencyResolver) :
    (∀ c ∈ (resolve_gem_sources reflection_data r).classes,
      (c.source_gem_name ≠ "" ∧
        ∃ c0 ∈ reflection_data.classes, c0.source_gem_name = c.source_gem_name) ∨
      has_gem r c.source_gem_name = true ∨
      c.source_gem_name ∈ r.class_mappings.map (·.2) ∨
      c.source_gem_name ∈ r.mapping_config.category_mappings.map (·.2) ∨
      c.source_gem_name ∈ r.mapping_config.prefix_mappings.map (·.2) ∨
      c.source_gem_name = r.mapping_config.default_gem_name) ∧
    (∀ e ∈ (resolve_gem_sources reflection_data r).ebuses,
      (e.source_gem_name ≠ "" ∧
        ∃ e0 ∈ reflection_data.ebuses, e0.source_gem_name = e.source_gem_name) ∨
      has_gem r e.source_gem_name = true ∨
      e.source_gem_name ∈ r.class_mappings.map (·.2) ∨
      e.source_gem_name ∈ r.mapping_config.category_mappings.map (·.2) ∨
      e.source_gem_name ∈ r.mapping_config.prefix_mappings.map (·.2) ∨
      e.source_gem_name = r.mapping_config.default_gem_name) := by
  constructor
  · intro c hc
    simp only [resolve_gem_sources, List.mem_map] at hc
    obtain ⟨c0, hc0, rfl⟩ := hc
    by_cases h : c0.source_gem_name = ""
    · simp only [h, if_pos]
      right
      exact resolve_gem_for_class_range r c0.name c0.category
    · simp only [h, if_neg, if_false]
      left
      exact ⟨h, c0, hc0, rfl⟩
  · intro e he
    simp only [resolve_gem_sources, List.mem_map] at he
    obtain ⟨e0, he0, rfl⟩ := he
    by_cases h : e0.source_gem_name = ""
    · simp only [h, if_pos]
      right
      exact resolve_gem_for_class_range r e0.name e0.category
    · simp only [h, if_neg, if_false]
      left
      exact ⟨h, e0, he0, rfl⟩

theorem c5_amended_annotation_range_witness :
    (({ name := "Foo", category := "Math", source_gem_name := "AzCore" } :
        ReflectedClass) ∈ (resolve_gem_sources
          { classes := [{ name := "Foo", category := "Math" }] }
          resolver_init).classes) ∧
    ((({ name := "Foo", category := "Math", source_gem_name := "AzCore" } :
         ReflectedClass).source_gem_name ≠ "" ∧
       ∃ c0 ∈ ({ classes := [{ name := "Foo", category := "Math" }] } :
           ReflectionData).classes,
         c0.source_gem_name =
           ({ name := "Foo", category := "Math", source_gem_name := "AzCore" } :
             ReflectedClass).source_gem_name) ∨
     has_gem resolver_init
       ({ name := "Foo", category := "Math", source_gem_name := "AzCore" } :
         ReflectedClass).source_gem_name = true ∨
     ({ name := "Foo", category := "Math", source_gem_name := "AzCore" } :
         ReflectedClass).source_gem_name ∈
       resolver_init.class_mappings.map (·.2) ∨
     ({ name := "Foo", category := "Math", source_gem_name := "AzCore" } :
         ReflectedClass).source_gem_name ∈
       resolver_init.mapping_config.category_mappings.map (·.2) ∨
     ({ name := "Foo", category := "Math", source_gem_name := "AzCore" } :
         ReflectedClass).source_gem_name ∈
       resolver_init.mapping_config.prefix_mappings.map (·.2) ∨
     ({ name := "Foo", category := "Math", source_gem_name := "AzCore" } :
         ReflectedClass).source_gem_name =
       resolver_init.mapping_config.default_gem_name) :=
  ⟨by decide,
   (c5_amended_annotation_range
       { classes := [{ name := "Foo", category := "Math" }] } resolver_init).1
     { name := "Foo", category := "Math", source_gem_name := "AzCore" }
     (by decide)⟩

/- ============================================================
   Claim C1 : determinism of generation
   ============================================================ -/

set_option maxRecDepth 1000000 in
/-- C1 fails as stated: with the default configuration (empty
`file_header`), `_generate_file_header` embeds the `datetime.now()`
timestamp, so two runs over identical inputs made at different times
produce different file text (here on `InternalCalls.cs`, already with an
empty reflection data set and no resolver). -/
theorem c1_counterexample :
    ((generate_from_reflection_data {} {} none "2025-01-01 00:00:00").2.map
        (fun f => (f.relative_path, f.content))) ≠
      ((generate_from_reflection_data {} {} none "2025-01-01 00:00:01").2.map
        (fun f => (f.relative_path, f.content))) := by
  decide

/-- C1 as amended: generation is a pure function of the reflection data,
the resolver state, the configuration and the generation timestamp; when a
non-empty `file_header` is configured, the timestamp is unused, so two runs
over identical inputs produce byte-identical file records (paths, full
text, and in particular the solution file with its name-derived GUIDs). -/
theorem c1_amended_deterministic (cfg : BindingGeneratorConfig)
    (reflection_data : ReflectionData)
    (gem_resolver : Option GemDependencyResolver) (now1 now2 : String)
    (h : cfg.file_header ≠ "") :
    generate_from_reflection_data cfg reflection_data gem_resolver now1 =
      generate_from_reflection_data cfg reflection_data gem_resolver now2 := by
  have hh : ∀ now, generate_file_header cfg now = cfg.file_header := by
    intro now
    simp [generate_file_header, h]
  have hgc : ∀ a b c d e, generate_classes_file cfg now1 a b c d e =
      generate_classes_file cfg now2 a b c d e := by
    intro a b c d e
    simp only [generate_classes_file, hh]
  have hge : ∀ a b c d e, generate_ebus_file cfg now1 a b c d e =
      generate_ebus_file cfg now2 a b c d e := by
    intro a b c d e
    simp only [generate_ebus_file, hh]
  have hic : ∀ d, generate_internal_calls_file cfg now1 d =
      generate_internal_calls_file cfg now2 d := by
    intro d
    simp only [generate_internal_calls_file, hh]
  have hai : ∀ a b d, generate_assembly_info cfg now1 a b d =
      generate_assembly_info cfg now2 a b d := by
    intro a b d
    simp only [generate_assembly_info, hh]
  have hcore : ∀ d, generate_core_bindings cfg now1 d =
      generate_core_bindings cfg now2 d := by
    intro d
    simp only [generate_core_bindings, hgc, hge]
  have hpg : ∀ g d r, process_gem cfg now1 g d r = process_gem cfg now2 g d r := by
    intro g d r
    simp only [process_gem, hgc, hge, hai]
  have hgb : ∀ d r, generate_gem_bindings cfg now1 d r =
      generate_gem_bindings cfg now2 d r := by
    intro d r
    simp only [generate_gem_bindings, hpg]
  simp only [generate_from_reflection_data, hcore, hgb, hic]

theorem c1_amended_deterministic_witness :
    (({ file_header := "// fixed header" } : BindingGeneratorConfig).file_header ≠ "") ∧
    generate_from_reflection_data { file_header := "// fixed header" }
        { classes := [{ name := "PhysXRigidBody" }] } none "2025-01-01 00:00:00" =
      generate_from_reflection_data { file_header := "// fixed header" }
        { classes := [{ name := "PhysXRigidBody" }] } none "2025-01-01 00:00:01" :=
  ⟨by decide,
   c1_amended_deterministic { file_header := "// fixed header" }
     { classes := [{ name := "PhysXRigidBody" }] } none
     "2025-01-01 00:00:00" "2025-01-01 00:00:01" (by decide)⟩

/- ============================================================
   Claim C8 : checksum-gated incremental writes
   ============================================================ -/

theorem string_append_left_cancel {s a b : String} (h : s ++ a = s ++ b) :
    a = b := by
  have hd : (s ++ a).data = (s ++ b).data := congrArg String.data h
  simp only [String.data_append] at hd
  cases a with
  | mk da =>
    cases b with
    | mk db =>
      exact congrArg String.mk (List.append_cancel_left hd)

/-- Paths not produced by any record in `files` are untouched by the
write loop. -/
theorem write_fold_frame (cfg : BindingGeneratorConfig)
    (files : List GeneratedFile) (acc : List (String × String) × Nat)
    (p : String)
    (h : ∀ f ∈ files, cfg.output_directory ++ "/" ++ f.relative_path ≠ p) :
    dictGet p (files.foldl (write_files_step cfg) acc).1 = dictGet p acc.1 := by
  induction files generalizing acc with
  | nil => rfl
  | cons f rest ih =>
    simp only [List.foldl_cons]
    rw [ih _ (fun g hg => h g (List.mem_cons_of_mem f hg))]
    unfold write_files_step
    dsimp only
    split
    · rfl
    · exact dictGet_dictInsert_ne _ _ _ _ (h f (List.mem_cons_self f rest))

/-- Per-record behavior of the write loop when overwriting is disabled. -/
theorem write_fold_mem (cfg : BindingGeneratorConfig)
    (ho : cfg.overwrite_existing = false) :
    ∀ (files : List GeneratedFile) (acc : List (String × String) × Nat),
      (files.map (·.relative_path)).Nodup →
      ∀ f ∈ files,
        (∀ c, dictGet (cfg.output_directory ++ "/" ++ f.relative_path) acc.1 =
            some c →
          md5HexOfString c = f.checksum →
          dictGet (cfg.output_directory ++ "/" ++ f.relative_path)
            (files.foldl (write_files_step cfg) acc).1 = some c) ∧
        ((dictGet (cfg.output_directory ++ "/" ++ f.relative_path) acc.1 = none ∨
          (∀ c, dictGet (cfg.output_directory ++ "/" ++ f.relative_path) acc.1 =
              some c → md5HexOfString c ≠ f.checksum)) →
          dictGet (cfg.output_directory ++ "/" ++ f.relative_path)
            (files.foldl (write_files_step cfg) acc).1 = some f.content) := by
  intro files
  induction files with
  | nil => intro acc _ f hf; cases hf
  | cons g rest ih =>
    intro acc hnd f hf
    have hnd_rest : (rest.map (·.relative_path)).Nodup := (List.nodup_cons.1 hnd).2
    have hg_not : g.relative_path ∉ rest.map (·.relative_path) :=
      (List.nodup_cons.1 hnd).1
    rcases List.mem_cons.1 hf with rfl | hf_rest
    · -- f is the head; the step handles it, the tail leaves the path alone
      have hframe : ∀ acc', dictGet (cfg.output_directory ++ "/" ++ f.relative_path)
          (rest.foldl (write_files_step cfg) acc').1 =
          dictGet (cfg.output_directory ++ "/" ++ f.relative_path) acc'.1 := by
        intro acc'
        refine write_fold_frame cfg rest acc' _ (fun e he => ?_)
        intro hcontra
        exact hg_not (string_append_left_cancel hcontra ▸
          List.mem_map_of_mem (·.relative_path) he)
      constructor
      · intro c hsome hmd5
        simp only [List.foldl_cons]
        rw [hframe]
        unfold write_files_step
        simp [hsome, ho, hmd5]
      · intro hcase
        simp only [List.foldl_cons]
        rw [hframe]
        unfold write_files_step
        rcases hcase with hnone | hdiff
        · simp only [hnone]
          simp only [Bool.false_eq_true, if_neg, ite_false]
          exact dictGet_dictInsert_self _ _ _
        · cases hsome : dictGet (cfg.output_directory ++ "/" ++ f.relative_path)
              acc.1 with
          | none =>
            simp only [hsome]
            simp only [Bool.false_eq_true, if_neg, ite_false]
            exact dictGet_dictInsert_self _ _ _
          | some c =>
            have hne := hdiff c hsome
            simp only [hsome, ho, Bool.not_false, Bool.true_and,
              beq_eq_false_iff_ne.2 hne, Bool.false_eq_true, if_neg, ite_false]
            exact dictGet_dictInsert_self _ _ _
    · -- f is in the tail; the head's step does not touch f's path
      have hpath_ne : cfg.output_directory ++ "/" ++ g.relative_path ≠
          cfg.output_directory ++ "/" ++ f.relative_path := by
        intro hcontra
        exact hg_not (string_append_left_cancel hcontra ▸
          List.mem_map_of_mem (·.relative_path) hf_rest)
      have hstep : dictGet (cfg.output_directory ++ "/" ++ f.relative_path)
          (write_files_step cfg acc g).1 =
          dictGet (cfg.output_directory ++ "/" ++ f.relative_path) acc.1 := by
        unfold write_files_step
        dsimp only
        split
        · rfl
        · exact dictGet_dictInsert_ne _ _ _ _ hpath_ne
      have := ih (write_files_step cfg acc g) hnd_rest f hf_rest
      simp only [List.foldl_cons]
      rw [hstep] at this
      exact this

/-- C8: with writing enabled and overwriting disabled, `write_files` leaves
untouched every record whose target path holds content with the record's
MD5 checksum, writes the record's text when the path is absent or the
checksums differ, and every record built by the generator carries the MD5
digest of its full text as its checksum. -/
theorem c8_incremental_write (cfg : BindingGeneratorConfig)
    (generated_files : List GeneratedFile) (fs : List (String × String))
    (hw : cfg.write_to_disk = true) (ho : cfg.overwrite_existing = false)
    (hnd : (generated_files.map (·.relative_path)).Nodup) :
    (∀ f ∈ generated_files, ∀ c,
        dictGet (cfg.output_directory ++ "/" ++ f.relative_path) fs = some c →
        md5HexOfString c = f.checksum →
        dictGet (cfg.output_directory ++ "/" ++ f.relative_path)
          (write_files cfg generated_files fs).1 = some c) ∧
    (∀ f ∈ generated_files,
        (dictGet (cfg.output_directory ++ "/" ++ f.relative_path) fs = none ∨
         (∀ c, dictGet (cfg.output_directory ++ "/" ++ f.relative_path) fs =
            some c → md5HexOfString c ≠ f.checksum)) →
        dictGet (cfg.output_directory ++ "/" ++ f.relative_path)
          (write_files cfg generated_files fs).1 = some f.content) ∧
    (∀ p c, (mkGeneratedFile p c).checksum = md5HexOfString c) := by
  have hw' : write_files cfg generated_files fs =
      generated_files.foldl (write_files_step cfg) (fs, 0) := by
    simp [write_files, hw]
  refine ⟨?_, ?_, fun p c => rfl⟩
  · intro f hf c hsome hmd5
    rw [hw']
    exact (write_fold_mem cfg ho generated_files (fs, 0) hnd f hf).1 c hsome hmd5
  · intro f hf hcase
    rw [hw']
    exact (write_fold_mem cfg ho generated_files (fs, 0) hnd f hf).2 hcase

theorem c8_incremental_write_witness :
    (({ overwrite_existing := false } : BindingGeneratorConfig).write_to_disk
        = true) ∧
    (({ overwrite_existing := false } :
        BindingGeneratorConfig).overwrite_existing = false) ∧
    (([mkGeneratedFile "A.cs" "hello", mkGeneratedFile "B.cs" "world"].map
        (·.relative_path)).Nodup) ∧
    ((∀ f ∈ [mkGeneratedFile "A.cs" "hello", mkGeneratedFile "B.cs" "world"],
        ∀ c, dictGet (({ overwrite_existing := false } :
            BindingGeneratorConfig).output_directory ++ "/" ++ f.relative_path)
            [("Generated/CSharp/A.cs", "hello")] = some c →
          md5HexOfString c = f.checksum →
          dictGet (({ overwrite_existing := false } :
              BindingGeneratorConfig).output_directory ++ "/" ++ f.relative_path)
            (write_files { overwrite_existing := false }
              [mkGeneratedFile "A.cs" "hello", mkGeneratedFile "B.cs" "world"]
              [("Generated/CSharp/A.cs", "hello")]).1 = some c) ∧
     (∀ f ∈ [mkGeneratedFile "A.cs" "hello", mkGeneratedFile "B.cs" "world"],
        (dictGet (({ overwrite_existing := false } :
            BindingGeneratorConfig).output_directory ++ "/" ++ f.relative_path)
            [("Generated/CSharp/A.cs", "hello")] = none ∨
         (∀ c, dictGet (({ overwrite_existing := false } :
              BindingGeneratorConfig).output_directory ++ "/" ++ f.relative_path)
              [("Generated/CSharp/A.cs", "hello")] = some c →
            md5HexOfString c ≠ f.checksum)) →
        dictGet (({ overwrite_existing := false } :
            BindingGeneratorConfig).output_directory ++ "/" ++ f.relative_path)
          (write_files { overwrite_existing := false }
            [mkGeneratedFile "A.cs" "hello", mkGeneratedFile "B.cs" "world"]
            [("Generated/CSharp/A.cs", "hello")]).1 = some f.content) ∧
     (∀ p c, (mkGeneratedFile p c).checksum = md5HexOfString c)) :=
  ⟨rfl, rfl, by decide,
   c8_incremental_write { overwrite_existing := false }
     [mkGeneratedFile "A.cs" "hello", mkGeneratedFile "B.cs" "world"]
     [("Generated/CSharp/A.cs", "hello")] rfl rfl (by decide)⟩

/- ============================================================
   Claims C2/C3 : groundwork about the gem dictionary
   ============================================================ -/

/-- The registered names, in registration order. -/
def gemNames (gems : List GemDescriptor) : List String :=
  gems.map (·.name)

theorem findGem_isSome_iff (gems : List GemDescriptor) (x : String) :
    (findGem gems x).isSome = true ↔ x ∈ gemNames gems := by
  induction gems with
  | nil => simp [findGem, gemNames]
  | cons g rest ih =>
    by_cases h : g.name = x
    · simp [findGem, gemNames, h]
    · simp [findGem, gemNames, h, ih, Ne.symm h]

theorem findGem_eq_some (gems : List GemDescriptor) (x : String)
    (g : GemDescriptor) (h : findGem gems x = some g) :
    g ∈ gems ∧ g.name = x := by
  induction gems with
  | nil => simp [findGem] at h
  | cons g0 rest ih =>
    by_cases h0 : g0.name = x
    · simp only [findGem, h0, if_pos] at h
      cases h
      exact ⟨List.mem_cons_self _ _, h0⟩
    · simp only [findGem, h0, if_false, ite_false] at h
      obtain ⟨hmem, hname⟩ := ih h
      exact ⟨List.mem_cons_of_mem _ hmem, hname⟩

theorem findGem_mem_of_names (gems : List GemDescriptor) (x : String)
    (h : x ∈ gemNames gems) : ∃ g, findGem gems x = some g ∧ g ∈ gems ∧
      g.name = x := by
  have h1 : (findGem gems x).isSome = true := (findGem_isSome_iff gems x).2 h
  cases hg : findGem gems x with
  | none => rw [hg] at h1; cases h1
  | some g => exact ⟨g, rfl, findGem_eq_some gems x g hg⟩

theorem findGem_self_of_nodup (gems : List GemDescriptor)
    (hnd : (gemNames gems).Nodup) (g : GemDescriptor) (hg : g ∈ gems) :
    findGem gems g.name = some g := by
  induction gems with
  | nil => cases hg
  | cons g0 rest ih =>
    rcases List.mem_cons.1 hg with rfl | hmem
    · simp [findGem]
    · have hnd' : (gemNames rest).Nodup := (List.nodup_cons.1 hnd).2
      have h0 : g0.name ∉ gemNames rest := (List.nodup_cons.1 hnd).1
      have hne : g0.name ≠ g.name := by
        intro hcontra
        exact h0 (hcontra ▸ List.mem_map_of_mem (·.name) hmem)
      simp only [findGem, hne, if_false, ite_false]
      exact ih hnd' hmem

theorem findGem_map (gems : List GemDescriptor) (f : GemDescriptor → GemDescriptor)
    (hf : ∀ g, (f g).name = g.name) (x : String) :
    findGem (gems.map f) x = (findGem gems x).map f := by
  induction gems with
  | nil => simp [findGem]
  | cons g rest ih =>
    by_cases h : g.name = x
    · simp [findGem, hf, h]
    · simp [findGem, hf, h, ih]

theorem dictAdjust_keys {k : String} {f : Int → Int}
    (m : List (String × Int)) :
    (dictAdjust k f m).map (·.1) = m.map (·.1) := by
  induction m with
  | nil => rfl
  | cons p rest ih =>
    obtain ⟨k', v⟩ := p
    by_cases h : k' = k
    · simp [dictAdjust, h]
    · simp [dictAdjust, h, ih]

theorem dictGet_dictAdjust_self (k : String) (f : Int → Int)
    (m : List (String × Int)) :
    dictGet k (dictAdjust k f m) = (dictGet k m).map f := by
  induction m with
  | nil => simp [dictAdjust, dictGet]
  | cons p rest ih =>
    obtain ⟨k', v⟩ := p
    by_cases h : k' = k
    · simp [dictAdjust, dictGet, h]
    · simp [dictAdjust, dictGet, h, ih]

theorem dictGet_dictAdjust_ne (k x : String) (f : Int → Int)
    (m : List (String × Int)) (h : x ≠ k) :
    dictGet x (dictAdjust k f m) = dictGet x m := by
  induction m with
  | nil => simp [dictAdjust, dictGet]
  | cons p rest ih =>
    obtain ⟨k', v⟩ := p
    by_cases h1 : k' = k
    · subst h1
      simp [dictAdjust, dictGet, Ne.symm h]
    · by_cases h2 : k' = x
      · subst h2
        simp [dictAdjust, dictGet, h1, h]
      · simp [dictAdjust, dictGet, h1, h2, ih]

theorem dictGet_eq_none_of_not_mem_keys {x : String} {m : List (String × Int)}
    (h : x ∉ m.map (·.1)) : dictGet x m = none := by
  induction m with
  | nil => rfl
  | cons p rest ih =>
    obtain ⟨k, v⟩ := p
    simp only [List.map_cons, List.mem_cons] at h
    push_neg at h
    simp only [dictGet, Ne.symm h.1, if_false, ite_false]
    exact ih h.2

/-- With duplicate-free keys, an entry with value zero is the same thing as
a successful zero lookup. -/
theorem mem_filter_zero_iff (m : List (String × Int))
    (hnd : (m.map (·.1)).Nodup) (x : String) :
    x ∈ (m.filter (fun p => p.2 == 0)).map (·.1) ↔ dictGet x m = some 0 := by
  induction m with
  | nil => simp [dictGet]
  | cons p rest ih =>
    obtain ⟨k, v⟩ := p
    have hnd' : (rest.map (·.1)).Nodup := (List.nodup_cons.1 hnd).2
    have hk : k ∉ rest.map (·.1) := (List.nodup_cons.1 hnd).1
    by_cases hkx : k = x
    · subst hkx
      by_cases hv : v = 0
      · subst hv
        simp [dictGet, List.filter_cons]
      · have hnone : k ∉ (rest.filter (fun p => p.2 == 0)).map (·.1) := by
          intro hc
          apply hk
          obtain ⟨q, hq, hq2⟩ := List.mem_map.1 hc
          exact hq2 ▸ List.mem_map_of_mem (·.1) (List.mem_of_mem_filter hq)
        have hvb : (v == (0 : Int)) = false := by simpa using hv
        simp [dictGet, List.filter_cons, hvb, hv, hnone]
    · simp only [List.filter_cons, dictGet, hkx, if_false, ite_false]
      by_cases hv : (v == (0 : Int)) = true
      · simp only [hv, if_pos, List.map_cons, List.mem_cons]
        rw [ih hnd']
        constructor
        · rintro (h1 | h1)
          · exact absurd h1.symm hkx
          · exact h1
        · exact fun h1 => Or.inr h1
      · simp only [Bool.not_eq_true] at hv
        simp [hv, ih hnd']

/- ============================================================
   Claims C2/C3 : a concrete index function for list positions
   ============================================================ -/

/-- Index of the first occurrence (length when absent). -/
def idxOfStr (x : String) : List String → Nat
  | [] => 0
  | y :: ys => if y = x then 0 else idxOfStr x ys + 1

theorem idxOfStr_lt_length {x : String} {l : List String} (h : x ∈ l) :
    idxOfStr x l < l.length := by
  induction l with
  | nil => cases h
  | cons y ys ih =>
    by_cases hy : y = x
    · simp [idxOfStr, hy]
    · have hmem : x ∈ ys := by
        rcases List.mem_cons.1 h with h1 | h1
        · exact absurd h1.symm hy
        · exact h1
      simp only [idxOfStr, hy, if_false, ite_false, List.length_cons]
      have := ih hmem
      omega


theorem getD_idxOfStr {x : String} {l : List String} (h : x ∈ l) :
    l.getD (idxOfStr x l) "" = x := by
  induction l with
  | nil => cases h
  | cons y ys ih =>
    by_cases hy : y = x
    · simp [idxOfStr, hy]
    · have hmem : x ∈ ys := by
        rcases List.mem_cons.1 h with h1 | h1
        · exact absurd h1.symm hy
        · exact h1
      simp only [idxOfStr, hy, if_false, ite_false]
      simpa using ih hmem

theorem idxOfStr_lt_of_mem_take {x : String} {l : List String} {i : Nat}
    (h : x ∈ l.take i) : idxOfStr x l < i := by
  induction l generalizing i with
  | nil => simp at h
  | cons y ys ih =>
    cases i with
    | zero => simp at h
    | succ j =>
      simp only [List.take_succ_cons, List.mem_cons] at h
      by_cases hy : y = x
      · simp [idxOfStr, hy]
      · have hmem : x ∈ ys.take j := by
          rcases h with h1 | h1
          · exact absurd h1.symm hy
          · exact h1
        simp only [idxOfStr, hy, if_false, ite_false]
        have := ih hmem
        omega

/- ============================================================
   Claims C2/C3 : generic fold / count / filter lemmas
   ============================================================ -/

theorem foldl_flatMap {α β γ : Type} (l : List α) (f : α → List β)
    (step : γ → β → γ) (init : γ) :
    l.foldl (fun acc x => (f x).foldl step acc) init =
      (l.flatMap f).foldl step init := by
  induction l generalizing init with
  | nil => rfl
  | cons x xs ih => simp [List.flatMap_cons, List.foldl_append, ih]

theorem count_map_const {α : Type} (l : List α) (y x : String) :
    ((l.map (fun _ => y)).count x) = if y = x then l.length else 0 := by
  induction l with
  | nil => simp
  | cons a as ih =>
    by_cases h : y = x
    · simp [List.count_cons, h, ih]
    · simp [List.count_cons, h, ih, List.count_replicate, Ne.symm h]

theorem count_flatMap {α : Type} (l : List α) (f : α → List String) (x : String) :
    ((l.flatMap f).count x) = (l.map (fun a => (f a).count x)).sum := by
  induction l with
  | nil => simp
  | cons a as ih => simp [List.flatMap_cons, List.count_append, ih]

theorem sum_single_name (g : GemDescriptor) (F : GemDescriptor → Nat) :
    ∀ (gems : List GemDescriptor), (gemNames gems).Nodup → g ∈ gems →
      (gems.map (fun h => if h.name = g.name then F h else 0)).sum = F g := by
  intro gems
  induction gems with
  | nil => intro _ hg; cases hg
  | cons h0 rest ih =>
    intro hnd hg
    simp only [gemNames, List.map_cons, List.nodup_cons] at hnd
    rcases List.mem_cons.1 hg with rfl | hmem
    · have hrest : (rest.map (fun h => if h.name = g.name then F h else 0)).sum = 0 := by
        apply List.sum_eq_zero
        intro v hv
        obtain ⟨h1, hh1, hh2⟩ := List.mem_map.1 hv
        have : h1.name ≠ g.name := by
          intro hcontra
          exact hnd.1 (hcontra ▸ List.mem_map_of_mem (·.name) hh1)
        rw [← hh2]
        simp [this]
      simp [hrest]
    · have hne : h0.name ≠ g.name := by
        intro hcontra
        exact hnd.1 (hcontra ▸ List.mem_map_of_mem (·.name) hmem)
      have := ih hnd.2 hmem
      simp [hne, this]

theorem length_filter_mono {α : Type} (l : List α) (p q : α → Bool)
    (h : ∀ a ∈ l, p a = true → q a = true) :
    (l.filter p).length ≤ (l.filter q).length := by
  induction l with
  | nil => simp
  | cons x xs ih =>
    have ih' := ih (fun a ha => h a (List.mem_cons_of_mem x ha))
    by_cases hp : p x = true
    · have hq := h x (List.mem_cons_self x xs) hp
      simp only [List.filter_cons, hp, hq, if_pos, List.length_cons]
      omega
    · simp only [Bool.not_eq_true] at hp
      by_cases hq : q x = true
      · simp only [List.filter_cons, hp, hq, if_pos, Bool.false_eq_true,
          ite_false, List.length_cons]
        omega
      · simp only [Bool.not_eq_true] at hq
        simp only [List.filter_cons, hp, hq, Bool.false_eq_true, ite_false]
        exact ih'

theorem filter_imp_of_length_le {α : Type} (l : List α) (p q : α → Bool)
    (himp : ∀ a ∈ l, p a = true → q a = true)
    (hle : (l.filter q).length ≤ (l.filter p).length) :
    ∀ a ∈ l, q a = true → p a = true := by
  induction l with
  | nil => intro a ha; cases ha
  | cons x xs ih =>
    intro a ha hqa
    have himp' : ∀ b ∈ xs, p b = true → q b = true :=
      fun b hb => himp b (List.mem_cons_of_mem x hb)
    by_cases hqx : q x = true
    · by_cases hpx : p x = true
      · have hle' : (xs.filter q).length ≤ (xs.filter p).length := by
          simp only [List.filter_cons, hqx, hpx, if_pos, List.length_cons] at hle
          omega
        rcases List.mem_cons.1 ha with rfl | ha'
        · exact hpx
        · exact ih himp' hle' a ha' hqa
      · exfalso
        have hmono := length_filter_mono xs p q himp'
        simp only [Bool.not_eq_true] at hpx
        simp only [List.filter_cons, hqx, hpx, if_pos, Bool.false_eq_true,
          ite_false, List.length_cons] at hle
        omega
    · have hpx : p x = false := by
        by_contra hc
        simp only [Bool.not_eq_false] at hc
        exact hqx (himp x (List.mem_cons_self x xs) hc)
      simp only [Bool.not_eq_true] at hqx
      simp only [List.filter_cons, hqx, hpx, Bool.false_eq_true, ite_false] at hle
      rcases List.mem_cons.1 ha with rfl | ha'
      · exact absurd hqa (by simp [hqx])
      · exact ih himp' hle a ha' hqa

theorem length_filter_add_filter_le {α : Type} (l : List α) (p q : α → Bool)
    (hdisj : ∀ a ∈ l, ¬(p a = true ∧ q a = true)) :
    (l.filter p).length + (l.filter q).length ≤ l.length := by
  induction l with
  | nil => simp
  | cons x xs ih =>
    have ih' := ih (fun a ha => hdisj a (List.mem_cons_of_mem x ha))
    have hx := hdisj x (List.mem_cons_self x xs)
    by_cases hp : p x = true
    · have hq : q x = false := by
        by_contra hc
        simp only [Bool.not_eq_false] at hc
        exact hx ⟨hp, hc⟩
      simp only [List.filter_cons, hp, hq, if_pos, Bool.false_eq_true,
        ite_false, List.length_cons]
      omega
    · simp only [Bool.not_eq_true] at hp
      by_cases hq : q x = true
      · simp only [List.filter_cons, hp, hq, if_pos, Bool.false_eq_true,
          ite_false, List.length_cons]
        omega
      · simp only [Bool.not_eq_true] at hq
        simp only [List.filter_cons, hp, hq, Bool.false_eq_true, ite_false,
          List.length_cons]
        omega

theorem exists_min_rank (f : String → Nat) :
    ∀ (l : List String), l ≠ [] → ∃ x ∈ l, ∀ y ∈ l, f x ≤ f y := by
  intro l
  induction l with
  | nil => intro h; cases h rfl
  | cons a as ih =>
    intro _
    cases as with
    | nil =>
      refine ⟨a, List.mem_cons_self a [], ?_⟩
      intro y hy
      rcases List.mem_cons.1 hy with rfl | hy'
      · exact Nat.le_refl _
      · cases hy'
    | cons b bs =>
      obtain ⟨x, hx, hmin⟩ := ih (by simp)
      by_cases hle : f a ≤ f x
      · refine ⟨a, List.mem_cons_self a _, ?_⟩
        intro y hy
        rcases List.mem_cons.1 hy with rfl | hy'
        · exact Nat.le_refl _
        · exact Nat.le_trans hle (hmin y hy')
      · refine ⟨x, List.mem_cons_of_mem a hx, ?_⟩
        intro y hy
        rcases List.mem_cons.1 hy with rfl | hy'
        · exact Nat.le_of_lt (Nat.lt_of_not_le hle)
        · exact hmin y hy'

/- ============================================================
   Claims C2/C3 : closed form of the built dependents lists
   ============================================================ -/

/-- The inverse-edge list `_build_dependency_graph` computes for the gem
named `x`: one occurrence of `h.name` per occurrence of `x` in
`h.dependencies`, in registration order. -/
def dependentsOf (gems : List GemDescriptor) (x : String) : List String :=
  gems.flatMap (fun h =>
    (h.dependencies.filter (fun d => d == x)).map (fun _ => h.name))

theorem dependentsOf_subset_names (gems : List GemDescriptor) (x : String) :
    ∀ d ∈ dependentsOf gems x, d ∈ gemNames gems := by
  intro d hd
  simp only [dependentsOf, List.mem_flatMap] at hd
  obtain ⟨h, hh, hd2⟩ := hd
  obtain ⟨_, _, rfl⟩ := List.mem_map.1 hd2
  exact List.mem_map_of_mem (·.name) hh

def addFold (ps : List (String × String)) (base : List GemDescriptor) :
    List GemDescriptor :=
  ps.foldl (fun a p => addDependent p.1 p.2 a) base

theorem addFold_closed (ps : List (String × String)) :
    ∀ base, addFold ps base = base.map (fun g =>
      { g with dependents :=
          g.dependents ++ (ps.filter (fun p => p.1 == g.name)).map (·.2) }) := by
  induction ps with
  | nil =>
    intro base
    simp only [addFold, List.foldl_nil, List.filter_nil, List.map_nil,
      List.append_nil]
    exact (List.map_id base).symm
  | cons p ps ih =>
    intro base
    simp only [addFold, List.foldl_cons] at ih ⊢
    rw [ih]
    unfold addDependent
    rw [List.map_map]
    apply List.map_congr_left
    intro g _
    by_cases h : g.name = p.1
    · have hb : (p.1 == g.name) = true := by simp [h]
      simp [Function.comp, h, hb, List.filter_cons]
    · have hb : (p.1 == g.name) = false := beq_eq_false_iff_ne.2 (Ne.symm h)
      simp [Function.comp, h, hb, List.filter_cons]

theorem pair_piece (deps : List String) (n x : String) :
    ((deps.map (fun d => (d, n))).filter (fun p => p.1 == x)).map (·.2) =
      (deps.filter (fun d => d == x)).map (fun _ => n) := by
  induction deps with
  | nil => rfl
  | cons d rest ih =>
    by_cases h : (d == x) = true
    · simp only [List.map_cons, List.filter_cons, h, if_pos, List.map_cons]
      rw [ih]
    · simp only [Bool.not_eq_true] at h
      simp only [List.map_cons, List.filter_cons, h, Bool.false_eq_true,
        ite_false]
      exact ih

theorem pairs_filter_eq (gems : List GemDescriptor) (x : String) :
    ((gems.flatMap (fun g => g.dependencies.map (fun d => (d, g.name)))).filter
      (fun p => p.1 == x)).map (·.2) = dependentsOf gems x := by
  induction gems with
  | nil => rfl
  | cons g rest ih =>
    simp only [List.flatMap_cons, List.filter_append, List.map_append, ih,
      dependentsOf]
    simp only [dependentsOf] at ih
    rw [pair_piece]

theorem flatMap_of_map {α β γ : Type} (l : List α) (f : α → β) (h : β → List γ) :
    (l.map f).flatMap h = l.flatMap (fun x => h (f x)) := by
  induction l with
  | nil => rfl
  | cons a as ih => simp [List.flatMap_cons, ih]

/-- Closed form of `_build_dependency_graph`: every gem keeps its scalar
fields and receives exactly `dependentsOf gems g.name` as inverse edges. -/
theorem build_dependency_graph_closed (gems : List GemDescriptor) :
    build_dependency_graph gems = gems.map (fun g =>
      { g with dependents := dependentsOf gems g.name }) := by
  unfold build_dependency_graph
  have hstep : (fun (acc : List GemDescriptor) (g : GemDescriptor) =>
      g.dependencies.foldl (fun acc2 dep => addDependent dep g.name acc2) acc) =
      (fun acc g => (g.dependencies.map (fun d => (d, g.name))).foldl
        (fun a p => addDependent p.1 p.2 a) acc) := by
    funext acc g
    rw [List.foldl_map]
  rw [hstep, foldl_flatMap]
  have hpairs : ((gems.map (fun g => { g with dependents := ([] : List String) })).flatMap
      (fun g => g.dependencies.map (fun d => (d, g.name)))) =
      gems.flatMap (fun g => g.dependencies.map (fun d => (d, g.name))) := by
    rw [flatMap_of_map]
  rw [hpairs]
  rw [show (gems.flatMap (fun g => g.dependencies.map (fun d => (d, g.name)))).foldl
      (fun a p => addDependent p.1 p.2 a)
      (gems.map (fun g => { g with dependents := ([] : List String) })) =
    addFold (gems.flatMap (fun g => g.dependencies.map (fun d => (d, g.name))))
      (gems.map (fun g => { g with dependents := ([] : List String) })) from rfl]
  rw [addFold_closed, List.map_map]
  apply List.map_congr_left
  intro g _
  simp only [Function.comp]
  rw [pairs_filter_eq]
  rfl

/- ============================================================
   Claims C2/C3 : closed form of the initial in-degree dict
   ============================================================ -/

/-- The number of declared dependencies of `g` that are registered
(with multiplicity) — the initial Kahn in-degree. -/
def countRegDeps (gems : List GemDescriptor) (g : GemDescriptor) : Nat :=
  (g.dependencies.filter (fun d => (findGem gems d).isSome)).length

def incrFold (ks : List String) (m : List (String × Int)) : List (String × Int) :=
  ks.foldl (fun acc k => dictAdjust k (fun v => v + 1) acc) m

theorem incrFold_keys (ks : List String) :
    ∀ m, (incrFold ks m).map (·.1) = m.map (·.1) := by
  induction ks with
  | nil => intro m; rfl
  | cons k ks ih =>
    intro m
    simp only [incrFold, List.foldl_cons] at ih ⊢
    rw [ih, dictAdjust_keys]

theorem incrFold_get (ks : List String) :
    ∀ (m : List (String × Int)) (x : String),
      dictGet x (incrFold ks m) =
        (dictGet x m).map (fun v => v + (ks.count x : Int)) := by
  induction ks with
  | nil =>
    intro m x
    simp only [incrFold, List.foldl_nil, List.count_nil, Nat.cast_zero,
      Int.add_zero]
    cases dictGet x m <;> simp
  | cons k ks ih =>
    intro m x
    simp only [incrFold, List.foldl_cons] at ih ⊢
    rw [ih]
    by_cases h : x = k
    · subst h
      rw [dictGet_dictAdjust_self]
      have hc : List.count x (x :: ks) = List.count x ks + 1 := by
        simp [List.count_cons]
      rw [hc]
      cases dictGet x m with
      | none => rfl
      | some v =>
        simp only [Option.map_some']
        congr 1
        push_cast
        ring
    · rw [dictGet_dictAdjust_ne _ _ _ _ h]
      have hb : (k == x) = false := beq_eq_false_iff_ne.2 (Ne.symm h)
      cases dictGet x m with
      | none => simp
      | some v => simp [List.count_cons, hb]

theorem inner_incr (gems : List GemDescriptor) (gname : String) :
    ∀ (deps : List String) (acc : List (String × Int)),
      deps.foldl (fun acc2 dep =>
        if (findGem gems dep).isSome then dictAdjust gname (fun v => v + 1) acc2
        else acc2) acc =
      ((deps.filter (fun d => (findGem gems d).isSome)).map (fun _ => gname)).foldl
        (fun a k => dictAdjust k (fun v => v + 1) a) acc := by
  intro deps
  induction deps with
  | nil => intro acc; rfl
  | cons d rest ih =>
    intro acc
    by_cases h : (findGem gems d).isSome = true
    · simp only [List.filter_cons, h, if_pos, List.map_cons, List.foldl_cons]
      rw [ih]
    · simp only [Bool.not_eq_true] at h
      simp only [List.filter_cons, h, Bool.false_eq_true, ite_false,
        List.foldl_cons]
      exact ih acc

theorem inDegreeInit_eq (gems : List GemDescriptor) :
    inDegreeInit gems = incrFold
      (gems.flatMap (fun g =>
        (g.dependencies.filter (fun d => (findGem gems d).isSome)).map
          (fun _ => g.name)))
      (gems.map (fun g => (g.name, (0 : Int)))) := by
  unfold inDegreeInit
  have hstep : (fun (acc : List (String × Int)) (g : GemDescriptor) =>
      g.dependencies.foldl (fun acc2 dep =>
        if (findGem gems dep).isSome then dictAdjust g.name (fun v => v + 1) acc2
        else acc2) acc) =
      (fun acc g =>
        ((g.dependencies.filter (fun d => (findGem gems d).isSome)).map
          (fun _ => g.name)).foldl
            (fun a k => dictAdjust k (fun v => v + 1) a) acc) := by
    funext acc g
    exact inner_incr gems g.name g.dependencies acc
  rw [hstep, foldl_flatMap]
  rfl

theorem dictGet_base (gems : List GemDescriptor) (x : String) (c : Int) :
    dictGet x (gems.map (fun g => (g.name, c))) =
      (findGem gems x).map (fun _ => c) := by
  induction gems with
  | nil => rfl
  | cons g rest ih =>
    by_cases h : g.name = x
    · simp [dictGet, findGem, h]
    · simp [dictGet, findGem, h, ih]

theorem inDegreeInit_keys (gems : List GemDescriptor) :
    (inDegreeInit gems).map (·.1) = gemNames gems := by
  rw [inDegreeInit_eq, incrFold_keys]
  simp [gemNames]

theorem inDegreeInit_get (gems : List GemDescriptor)
    (hnd : (gemNames gems).Nodup) (g : GemDescriptor) (hg : g ∈ gems) :
    dictGet g.name (inDegreeInit gems) = some (countRegDeps gems g : Int) := by
  rw [inDegreeInit_eq, incrFold_get, dictGet_base,
    findGem_self_of_nodup gems hnd g hg]
  simp only [Option.map_some']
  congr 1
  rw [count_flatMap]
  have hterm : ∀ h : GemDescriptor,
      (((h.dependencies.filter (fun d => (findGem gems d).isSome)).map
        (fun _ => h.name)).count g.name) =
      if h.name = g.name then countRegDeps gems h else 0 := by
    intro h
    rw [count_map_const]
    rfl
  have hmapeq : gems.map (fun h =>
      (((h.dependencies.filter (fun d => (findGem gems d).isSome)).map
        (fun _ => h.name)).count g.name)) =
      gems.map (fun h => if h.name = g.name then countRegDeps gems h else 0) :=
    List.map_congr_left (fun h _ => hterm h)
  rw [hmapeq, sum_single_name g (countRegDeps gems) gems hnd hg, Int.zero_add]

theorem inDegreeInit_nonneg (gems : List GemDescriptor)
    (hnd : (gemNames gems).Nodup) :
    ∀ x v, dictGet x (inDegreeInit gems) = some v → 0 ≤ v := by
  intro x v hv
  by_cases hx : x ∈ gemNames gems
  · obtain ⟨g, _, hgmem, hgname⟩ := findGem_mem_of_names gems x hx
    rw [← hgname] at hv
    rw [inDegreeInit_get gems hnd g hgmem] at hv
    cases hv
    exact Int.natCast_nonneg _
  · have : dictGet x (inDegreeInit gems) = none := by
      apply dictGet_eq_none_of_not_mem_keys
      rw [inDegreeInit_keys]
      exact hx
    rw [this] at hv
    cases hv

/- ============================================================
   Claims C2/C3 : the inner decrement loop
   ============================================================ -/

/-- Current in-degree of `x`, defaulting to `0` off the key set. -/
def mGet (m : List (String × Int)) (x : String) : Int :=
  (dictGet x m).getD 0

/-- Number of entries with a (strictly) positive in-degree. -/
def posCount (m : List (String × Int)) : Nat :=
  (m.filter (fun p => decide (0 < p.2))).length

theorem dictGet_isSome_of_mem_keys {x : String} {m : List (String × Int)}
    (h : x ∈ m.map (·.1)) : (dictGet x m).isSome = true := by
  induction m with
  | nil => cases h
  | cons p rest ih =>
    obtain ⟨k, v⟩ := p
    by_cases hk : k = x
    · simp [dictGet, hk]
    · simp only [List.map_cons, List.mem_cons] at h
      rcases h with h | h
      · exact absurd h.symm hk
      · simp only [dictGet, hk, if_false, ite_false]
        exact ih h

theorem nodup_snoc {x : String} {l : List String} (h : l.Nodup) (hx : x ∉ l) :
    (l ++ [x]).Nodup := by
  refine List.Nodup.append h (List.nodup_singleton x) ?_
  intro a ha hax
  simp only [List.mem_singleton] at hax
  exact hx (hax ▸ ha)

theorem posCount_dictAdjust_dec (k : String) :
    ∀ m : List (String × Int),
      posCount (dictAdjust k (fun v => v - 1) m) +
        (if dictGet k m = some 1 then 1 else 0) = posCount m := by
  intro m
  induction m with
  | nil => simp [posCount, dictAdjust, dictGet]
  | cons p rest ih =>
    obtain ⟨k', v⟩ := p
    by_cases h : k' = k
    · subst h
      by_cases hv : v = 1
      · subst hv
        simp [posCount, dictAdjust, dictGet, List.filter_cons]
      · by_cases hpos : (0 : Int) < v
        · have hpos' : (0 : Int) < v - 1 := by omega
          simp [posCount, dictAdjust, dictGet, List.filter_cons, hpos, hpos', hv]
        · have hpos' : ¬ (0 : Int) < v - 1 := by omega
          simp [posCount, dictAdjust, dictGet, List.filter_cons, hpos, hpos', hv]
    · have ihh := ih
      simp only [dictAdjust, dictGet, h, if_false, ite_false]
      simp only [posCount, List.filter_cons] at ihh ⊢
      by_cases hpos : (0 : Int) < v
      · have hd : (decide ((0 : Int) < v)) = true := decide_eq_true hpos
        simp only [hd, if_pos, List.length_cons]
        omega
      · have hd : (decide ((0 : Int) < v)) = false := decide_eq_false hpos
        simp only [hd, Bool.false_eq_true, ite_false]
        omega

theorem dictGet_kahnStep_dec (m : List (String × Int)) (queue : List String)
    (dep x : String) :
    dictGet x (kahnStep (m, queue) dep).1 =
      if x = dep then (dictGet x m).map (fun v => v - 1) else dictGet x m := by
  by_cases h : x = dep
  · subst h
    simp [kahnStep, dictGet_dictAdjust_self]
  · simp [kahnStep, dictGet_dictAdjust_ne _ _ _ _ h, h]

/-- Everything the master induction needs to know about one pass of the
inner decrement loop over a dependents list `L`. -/
theorem kahn_inner (gems : List GemDescriptor) (sorted2 : List String) :
    ∀ (L : List String) (m : List (String × Int)) (queue : List String),
      (∀ d ∈ L, d ∈ gemNames gems) →
      (m.map (·.1) = gemNames gems) →
      ((sorted2 ++ queue).Nodup) →
      (∀ x ∈ sorted2 ++ queue, x ∈ gemNames gems) →
      (∀ x ∈ gemNames gems, (x ∈ sorted2 ++ queue ↔ mGet m x ≤ 0)) →
      ((L.foldl kahnStep (m, queue)).1.map (·.1) = gemNames gems) ∧
      (∀ x, dictGet x (L.foldl kahnStep (m, queue)).1 =
        (dictGet x m).map (fun v => v - (L.count x : Int))) ∧
      ((sorted2 ++ (L.foldl kahnStep (m, queue)).2).Nodup) ∧
      (∀ x ∈ sorted2 ++ (L.foldl kahnStep (m, queue)).2, x ∈ gemNames gems) ∧
      (∀ x ∈ gemNames gems,
        (x ∈ sorted2 ++ (L.foldl kahnStep (m, queue)).2 ↔
          mGet (L.foldl kahnStep (m, queue)).1 x ≤ 0)) ∧
      ((L.foldl kahnStep (m, queue)).2.length +
          posCount (L.foldl kahnStep (m, queue)).1 =
        queue.length + posCount m) := by
  intro L
  induction L with
  | nil =>
    intro m queue _ hkeys hnd hsub hiff
    refine ⟨hkeys, ?_, hnd, hsub, hiff, rfl⟩
    intro x
    simp only [List.foldl_nil, List.count_nil, Nat.cast_zero]
    cases dictGet x m <;> simp
  | cons dep L' ih =>
    intro m queue hL hkeys hnd hsub hiff
    have hdep_names : dep ∈ gemNames gems := hL dep (List.mem_cons_self _ _)
    have hdep_some : (dictGet dep m).isSome = true :=
      dictGet_isSome_of_mem_keys (hkeys ▸ hdep_names)
    obtain ⟨v, hv⟩ : ∃ v, dictGet dep m = some v := by
      cases hget : dictGet dep m with
      | none => rw [hget] at hdep_some; cases hdep_some
      | some v => exact ⟨v, rfl⟩
    have hm1 : (kahnStep (m, queue) dep).1 =
        dictAdjust dep (fun v => v - 1) m := rfl
    have hm1get : dictGet dep (kahnStep (m, queue) dep).1 = some (v - 1) := by
      rw [hm1, dictGet_dictAdjust_self, hv]
      rfl
    have hkeys1 : (kahnStep (m, queue) dep).1.map (·.1) = gemNames gems := by
      rw [hm1, dictAdjust_keys]
      exact hkeys
    have hL' : ∀ d ∈ L', d ∈ gemNames gems :=
      fun d hd => hL d (List.mem_cons_of_mem _ hd)
    -- establish the invariants for (m1, q1) and apply the tail induction
    by_cases hv1 : v = 1
    · -- the decrement reaches zero: dep is enqueued
      subst hv1
      have hq1p : (kahnStep (m, queue) dep).2 = queue ++ [dep] := by
        show (if dictGet dep (dictAdjust dep (fun v => v - 1) m) = some 0
            then queue ++ [dep] else queue) = _
        rw [dictGet_dictAdjust_self, hv]
        simp
      have hdep_not_mem : dep ∉ sorted2 ++ queue := by
        intro hc
        have := (hiff dep hdep_names).1 hc
        rw [mGet, hv] at this
        simp at this
      have hnd1 : (sorted2 ++ (kahnStep (m, queue) dep).2).Nodup := by
        rw [hq1p]
        rw [← List.append_assoc]
        exact nodup_snoc hnd hdep_not_mem
      have hsub1 : ∀ x ∈ sorted2 ++ (kahnStep (m, queue) dep).2,
          x ∈ gemNames gems := by
        rw [hq1p]
        intro x hx
        rw [← List.append_assoc] at hx
        rcases List.mem_append.1 hx with hx | hx
        · exact hsub x hx
        · simp only [List.mem_singleton] at hx
          exact hx ▸ hdep_names
      have hiff1 : ∀ x ∈ gemNames gems,
          (x ∈ sorted2 ++ (kahnStep (m, queue) dep).2 ↔
            mGet (kahnStep (m, queue) dep).1 x ≤ 0) := by
        intro x hx
        rw [hq1p]
        by_cases hxd : x = dep
        · subst hxd
          constructor
          · intro _
            rw [mGet, hm1get]
            simp
          · intro _
            rw [← List.append_assoc]
            exact List.mem_append_right _ (List.mem_singleton_self x)
        · have hget : dictGet x (kahnStep (m, queue) dep).1 = dictGet x m := by
            rw [hm1, dictGet_dictAdjust_ne _ _ _ _ hxd]
          rw [mGet, hget]
          rw [← List.append_assoc]
          constructor
          · intro hmem
            rcases List.mem_append.1 hmem with hmem | hmem
            · exact (hiff x hx).1 hmem
            · simp only [List.mem_singleton] at hmem
              exact absurd hmem hxd
          · intro hle
            exact List.mem_append_left _ ((hiff x hx).2 hle)
      have := ih (kahnStep (m, queue) dep).1 (kahnStep (m, queue) dep).2
        hL' hkeys1 hnd1 hsub1 hiff1
      obtain ⟨r1, r2, r3, r4, r5, r6⟩ := this
      have hfold : (dep :: L').foldl kahnStep (m, queue) =
          L'.foldl kahnStep (kahnStep (m, queue) dep) := rfl
      rw [hfold]
      have hstep_pair : kahnStep (m, queue) dep =
          ((kahnStep (m, queue) dep).1, (kahnStep (m, queue) dep).2) := rfl
      refine ⟨by rw [← hstep_pair] at r1; exact r1, ?_, ?_, ?_, ?_, ?_⟩
      · intro x
        rw [← hstep_pair] at r2
        rw [r2 x, dictGet_kahnStep_dec]
        by_cases hxd : x = dep
        · subst hxd
          rw [if_pos rfl, hv]
          simp only [Option.map_some', Option.map_map]
          have : List.count x (x :: L') = List.count x L' + 1 := by
            simp [List.count_cons]
          rw [this]
          congr 1
          push_cast
          ring
        · rw [if_neg hxd]
          have hb : (dep == x) = false := beq_eq_false_iff_ne.2 (Ne.symm hxd)
          have : List.count x (dep :: L') = List.count x L' := by
            simp [List.count_cons, hb]
          rw [this]
      · rw [← hstep_pair] at r3; exact r3
      · rw [← hstep_pair] at r4; exact r4
      · rw [← hstep_pair] at r5; exact r5
      · rw [← hstep_pair] at r6
        rw [r6]
        have hdec := posCount_dictAdjust_dec dep m
        rw [hv] at hdec
        rw [if_pos rfl] at hdec
        rw [hq1p]
        simp only [List.length_append, List.length_singleton]
        rw [hm1]
        omega
    · -- the decrement does not reach zero: queue unchanged
      have hq1' : (kahnStep (m, queue) dep).2 = queue := by
        show (if dictGet dep (dictAdjust dep (fun v => v - 1) m) = some 0
            then queue ++ [dep] else queue) = _
        rw [dictGet_dictAdjust_self, hv]
        have hne : ¬ (Option.map (fun v => v - 1) (some v) = some 0) := by
          simp only [Option.map_some', Option.some.injEq]
          omega
        rw [if_neg hne]
      have hnd1 : (sorted2 ++ (kahnStep (m, queue) dep).2).Nodup := by
        rw [hq1']; exact hnd
      have hsub1 : ∀ x ∈ sorted2 ++ (kahnStep (m, queue) dep).2,
          x ∈ gemNames gems := by
        rw [hq1']; exact hsub
      have hiff1 : ∀ x ∈ gemNames gems,
          (x ∈ sorted2 ++ (kahnStep (m, queue) dep).2 ↔
            mGet (kahnStep (m, queue) dep).1 x ≤ 0) := by
        intro x hx
        rw [hq1']
        by_cases hxd : x = dep
        · subst hxd
          rw [mGet, hm1get]
          have hold := hiff x hx
          rw [mGet, hv] at hold
          simp only [Option.getD_some] at hold ⊢
          constructor
          · intro hmem
            have := hold.1 hmem
            omega
          · intro hle
            apply hold.2
            omega
        · have hget : dictGet x (kahnStep (m, queue) dep).1 = dictGet x m := by
            rw [hm1, dictGet_dictAdjust_ne _ _ _ _ hxd]
          rw [mGet, hget]
          exact hiff x hx
      have := ih (kahnStep (m, queue) dep).1 (kahnStep (m, queue) dep).2
        hL' hkeys1 hnd1 hsub1 hiff1
      obtain ⟨r1, r2, r3, r4, r5, r6⟩ := this
      have hfold : (dep :: L').foldl kahnStep (m, queue) =
          L'.foldl kahnStep (kahnStep (m, queue) dep) := rfl
      rw [hfold]
      refine ⟨r1, ?_, r3, r4, r5, ?_⟩
      · intro x
        rw [r2 x, dictGet_kahnStep_dec]
        by_cases hxd : x = dep
        · subst hxd
          rw [if_pos rfl, hv]
          simp only [Option.map_some', Option.map_map]
          have : List.count x (x :: L') = List.count x L' + 1 := by
            simp [List.count_cons]
          rw [this]
          congr 1
          push_cast
          ring
        · rw [if_neg hxd]
          have hb : (dep == x) = false := beq_eq_false_iff_ne.2 (Ne.symm hxd)
          have : List.count x (dep :: L') = List.count x L' := by
            simp [List.count_cons, hb]
          rw [this]
      · rw [r6]
        have hdec := posCount_dictAdjust_dec dep m
        rw [hv] at hdec
        have hif : (if (some v : Option Int) = some 1 then 1 else 0) = 0 := by
          simp [hv1]
        rw [hif] at hdec
        rw [hq1', hm1]
        omega

/- ============================================================
   Claims C2/C3 : bookkeeping for the decrements already applied
   ============================================================ -/

/-- `l.contains` agrees with propositional membership for strings. -/
theorem contains_eq_decide_mem (l : List String) (a : String) :
    l.contains a = decide (a ∈ l) := by
  simp [List.contains_iff_exists_mem_beq]

/-- Total decrement applied to the in-degree of `x` once every gem named in
`sorted` has been popped: one per inverse edge out of a popped gem into
`x`. -/
def decSum (gems : List GemDescriptor) (sorted : List String) (x : String) : Nat :=
  (sorted.map (fun c => (dependentsOf gems c).count x)).sum

theorem decSum_nil (gems : List GemDescriptor) (x : String) :
    decSum gems [] x = 0 := rfl

theorem decSum_snoc (gems : List GemDescriptor) (sorted : List String)
    (c x : String) :
    decSum gems (sorted ++ [c]) x =
      decSum gems sorted x + (dependentsOf gems c).count x := by
  simp [decSum]

/-- How often the gem named `g.name` occurs among the dependents of `c`:
once per occurrence of `c` in its declared dependency list. -/
theorem count_dependentsOf (gems : List GemDescriptor)
    (hnd : (gemNames gems).Nodup) (g : GemDescriptor) (hg : g ∈ gems)
    (c : String) :
    (dependentsOf gems c).count g.name =
      (g.dependencies.filter (fun d => d == c)).length := by
  rw [dependentsOf, count_flatMap]
  have hmapeq : gems.map (fun h =>
      ((h.dependencies.filter (fun d => d == c)).map (fun _ => h.name)).count
        g.name) =
      gems.map (fun h => if h.name = g.name then
        (h.dependencies.filter (fun d => d == c)).length else 0) := by
    apply List.map_congr_left
    intro h _
    rw [count_map_const]
  rw [hmapeq,
    sum_single_name g (fun h => (h.dependencies.filter (fun d => d == c)).length)
      gems hnd hg]

theorem sum_indicator (d : String) :
    ∀ sorted : List String, sorted.Nodup →
      (sorted.map (fun c => if d = c then (1 : Nat) else 0)).sum =
        if d ∈ sorted then 1 else 0 := by
  intro sorted
  induction sorted with
  | nil => intro _; simp
  | cons c cs ih =>
    intro hnd
    have hnd' : cs.Nodup := (List.nodup_cons.1 hnd).2
    have hc : c ∉ cs := (List.nodup_cons.1 hnd).1
    by_cases h : d = c
    · subst h
      have hzero : (cs.map (fun c => if d = c then (1 : Nat) else 0)).sum = 0 := by
        apply List.sum_eq_zero
        intro v hv
        obtain ⟨c', hc', rfl⟩ := List.mem_map.1 hv
        have : d ≠ c' := fun hcontra => hc (hcontra ▸ hc')
        simp [this]
      simp [hzero]
    · have hmem : (d ∈ c :: cs) ↔ (d ∈ cs) := by
        simp [List.mem_cons, h]
      simp only [List.map_cons, List.sum_cons, h, if_false, ite_false,
        Nat.zero_add, ih hnd']
      simp [hmem]

theorem sum_count_eq_filter_length (deps : List String) :
    ∀ sorted : List String, sorted.Nodup →
      (sorted.map (fun c => (deps.filter (fun x => x == c)).length)).sum =
        (deps.filter (fun x => decide (x ∈ sorted))).length := by
  induction deps with
  | nil =>
    intro sorted _
    simp
  | cons x ds ih =>
    intro sorted hnd
    have hsplit : sorted.map (fun c => ((x :: ds).filter (fun y => y == c)).length) =
        sorted.map (fun c =>
          (if x = c then (1 : Nat) else 0) + (ds.filter (fun y => y == c)).length) := by
      apply List.map_congr_left
      intro c _
      by_cases h : x = c
      · have hb : (x == c) = true := by simp [h]
        simp [List.filter_cons, hb, h, Nat.add_comm]
      · have hb : (x == c) = false := by simp [h]
        simp [List.filter_cons, hb, h]
    rw [hsplit, List.sum_map_add, sum_indicator x sorted hnd, ih sorted hnd]
    by_cases hx : x ∈ sorted
    · have hd : (decide (x ∈ sorted)) = true := decide_eq_true hx
      simp [List.filter_cons, hd, hx, Nat.add_comm]
    · have hd : (decide (x ∈ sorted)) = false := decide_eq_false hx
      simp [List.filter_cons, hd, hx]

/-- Closed form of the accumulated decrement of a registered gem: the number
of its declared dependencies already popped. -/
theorem decSum_eq_filter (gems : List GemDescriptor)
    (hnd : (gemNames gems).Nodup) (g : GemDescriptor) (hg : g ∈ gems)
    (sorted : List String) (hs : sorted.Nodup) :
    decSum gems sorted g.name =
      (g.dependencies.filter (fun d => decide (d ∈ sorted))).length := by
  rw [decSum]
  have hmapeq : sorted.map (fun c => (dependentsOf gems c).count g.name) =
      sorted.map (fun c => (g.dependencies.filter (fun d => d == c)).length) :=
    List.map_congr_left (fun c _ => count_dependentsOf gems hnd g hg c)
  rw [hmapeq, sum_count_eq_filter_length g.dependencies sorted hs]

/- ============================================================
   Claims C2/C3 : the while-loop invariant of Kahn's algorithm
   ============================================================ -/

/-- Invariant of the `while queue:` loop of `_topological_sort`: keys are
the registered names, the popped and pending names are duplicate-free
registered names, a name has been popped or is pending exactly when its
in-degree has dropped to (or below) zero, every in-degree equals the
registered-dependency count minus the decrements applied so far, and every
name already popped was popped after all its registered dependencies. -/
structure KahnInv (gems : List GemDescriptor) (sorted : List String)
    (m : List (String × Int)) (queue : List String) : Prop where
  keys : m.map (·.1) = gemNames gems
  nodup : (sorted ++ queue).Nodup
  subset : ∀ x ∈ sorted ++ queue, x ∈ gemNames gems
  mem_iff : ∀ x ∈ gemNames gems, (x ∈ sorted ++ queue ↔ mGet m x ≤ 0)
  value : ∀ g ∈ gems, dictGet g.name m =
    some ((countRegDeps gems g : Int) - (decSum gems sorted g.name : Int))
  sortedOK : ∀ i, i < sorted.length → ∀ g ∈ gems,
    g.name = sorted.getD i "" →
    ∀ d ∈ g.dependencies, (findGem gems d).isSome = true → d ∈ sorted.take i

/-- A gem whose in-degree has dropped to zero or below has every registered
dependency among the already-popped names (the counting argument at the
heart of Kahn's algorithm). -/
theorem popped_deps_sorted (gems : List GemDescriptor)
    (hnd : (gemNames gems).Nodup)
    (sorted : List String) (m : List (String × Int)) (queue : List String)
    (inv : KahnInv gems sorted m queue)
    (g : GemDescriptor) (hg : g ∈ gems) (hmem : g.name ∈ sorted ++ queue) :
    ∀ d ∈ g.dependencies, (findGem gems d).isSome = true → d ∈ sorted := by
  have hs : sorted.Nodup := inv.nodup.of_append_left
  have hgn : g.name ∈ gemNames gems := List.mem_map_of_mem (·.name) hg
  have hle : mGet m g.name ≤ 0 := (inv.mem_iff g.name hgn).1 hmem
  have hval := inv.value g hg
  rw [mGet, hval] at hle
  simp only [Option.getD_some] at hle
  rw [decSum_eq_filter gems hnd g hg sorted hs] at hle
  have hle2 : (g.dependencies.filter
      (fun d => (findGem gems d).isSome)).length ≤
      (g.dependencies.filter (fun d => decide (d ∈ sorted))).length := by
    have : (countRegDeps gems g : Int) ≤
        ((g.dependencies.filter (fun d => decide (d ∈ sorted))).length : Int) := by
      omega
    have h2 : countRegDeps gems g ≤
        (g.dependencies.filter (fun d => decide (d ∈ sorted))).length := by
      exact_mod_cast this
    exact h2
  have himp : ∀ d ∈ g.dependencies, (decide (d ∈ sorted)) = true →
      (findGem gems d).isSome = true := by
    intro d _ hds
    have hdmem : d ∈ sorted := of_decide_eq_true hds
    have hdn : d ∈ gemNames gems := inv.subset d (List.mem_append_left _ hdmem)
    exact (findGem_isSome_iff gems d).2 hdn
  have hconc := filter_imp_of_length_le g.dependencies
    (fun d => decide (d ∈ sorted)) (fun d => (findGem gems d).isSome)
    himp hle2
  intro d hd hreg
  exact of_decide_eq_true (hconc d hd hreg)

/-- Unfolding one iteration of the while loop when the popped name is
registered. -/
theorem kahnLoop_cons (gems : List GemDescriptor) (fuel : Nat)
    (current : String) (rest : List String) (m : List (String × Int))
    (sorted : List String) (g : GemDescriptor)
    (hfind : findGem gems current = some g) :
    kahnLoop gems (fuel + 1) (current :: rest) m sorted =
      kahnLoop gems fuel ((g.dependents.foldl kahnStep (m, rest)).2)
        ((g.dependents.foldl kahnStep (m, rest)).1) (sorted ++ [current]) := by
  simp only [kahnLoop, hfind]

/-- Master lemma: with fuel at least the pending-plus-positive measure, the
queue drains completely and the invariant carries to the final state. -/
theorem kahn_master (gems : List GemDescriptor)
    (hnd : (gemNames gems).Nodup)
    (hdeps : ∀ g ∈ gems, g.dependents = dependentsOf gems g.name) :
    ∀ (fuel : Nat) (sorted : List String) (m : List (String × Int))
      (queue : List String),
      KahnInv gems sorted m queue →
      queue.length + posCount m ≤ fuel →
      (kahnLoop gems fuel queue m sorted).2.2 = [] ∧
      KahnInv gems (kahnLoop gems fuel queue m sorted).1
        (kahnLoop gems fuel queue m sorted).2.1 [] := by
  intro fuel
  induction fuel with
  | zero =>
    intro sorted m queue inv hmeas
    have hq : queue = [] := by
      have hlen : queue.length = 0 := by omega
      exact List.length_eq_zero.1 hlen
    subst hq
    exact ⟨rfl, inv⟩
  | succ fuel ih =>
    intro sorted m queue inv hmeas
    cases queue with
    | nil => exact ⟨rfl, inv⟩
    | cons current rest =>
      have hcur_names : current ∈ gemNames gems :=
        inv.subset current (List.mem_append_right _ (List.mem_cons_self _ _))
      obtain ⟨g, hfind, hg, hgname⟩ := findGem_mem_of_names gems current hcur_names
      have hpop : ∀ d ∈ g.dependencies, (findGem gems d).isSome = true →
          d ∈ sorted :=
        popped_deps_sorted gems hnd sorted m (current :: rest) inv g hg
          (by rw [hgname]; exact List.mem_append_right _ (List.mem_cons_self _ _))
      have hnd_app : ((sorted ++ [current]) ++ rest).Nodup := by
        rw [List.append_assoc, List.singleton_append]
        exact inv.nodup
      have hsub_app : ∀ x ∈ (sorted ++ [current]) ++ rest, x ∈ gemNames gems := by
        rw [List.append_assoc, List.singleton_append]
        exact inv.subset
      have hiff_app : ∀ x ∈ gemNames gems,
          (x ∈ (sorted ++ [current]) ++ rest ↔ mGet m x ≤ 0) := by
        intro x hx
        rw [List.append_assoc, List.singleton_append]
        exact inv.mem_iff x hx
      have hLsub : ∀ dd ∈ g.dependents, dd ∈ gemNames gems := by
        rw [hdeps g hg]
        exact fun dd hdd => dependentsOf_subset_names gems g.name dd hdd
      obtain ⟨r1, r2, r3, r4, r5, r6⟩ := kahn_inner gems (sorted ++ [current])
        g.dependents m rest hLsub inv.keys hnd_app hsub_app hiff_app
      have hvalue' : ∀ g' ∈ gems,
          dictGet g'.name (g.dependents.foldl kahnStep (m, rest)).1 =
          some ((countRegDeps gems g' : Int) -
            (decSum gems (sorted ++ [current]) g'.name : Int)) := by
        intro g' hg'
        rw [r2 g'.name, inv.value g' hg']
        simp only [Option.map_some']
        congr 1
        rw [decSum_snoc, hdeps g hg, hgname]
        push_cast
        ring
      have hOK' : ∀ i, i < (sorted ++ [current]).length → ∀ g' ∈ gems,
          g'.name = (sorted ++ [current]).getD i "" →
          ∀ d ∈ g'.dependencies, (findGem gems d).isSome = true →
            d ∈ (sorted ++ [current]).take i := by
        intro i hi g' hg' hname d hd hreg
        rcases Nat.lt_or_ge i sorted.length with hlt | hge
        · rw [List.getD_append _ _ _ _ hlt] at hname
          rw [List.take_append_of_le_length (Nat.le_of_lt hlt)]
          exact inv.sortedOK i hlt g' hg' hname d hd hreg
        · have hieq : i = sorted.length := by
            simp only [List.length_append, List.length_singleton] at hi
            omega
          subst hieq
          rw [List.getD_append_right _ _ _ _ hge] at hname
          simp only [Nat.sub_self] at hname
          have hname' : g'.name = current := by simpa using hname
          have h1 := findGem_self_of_nodup gems hnd g' hg'
          rw [hname', hfind] at h1
          have hgg : g = g' := by
            injection h1 with h1
          rw [List.take_left]
          subst hgg
          exact hpop d hd hreg
      have inv' : KahnInv gems (sorted ++ [current])
          (g.dependents.foldl kahnStep (m, rest)).1
          (g.dependents.foldl kahnStep (m, rest)).2 :=
        ⟨r1, r3, r4, r5, hvalue', hOK'⟩
      have hmeas' : (g.dependents.foldl kahnStep (m, rest)).2.length +
          posCount (g.dependents.foldl kahnStep (m, rest)).1 ≤ fuel := by
        simp only [List.length_cons] at hmeas
        omega
      rw [kahnLoop_cons gems fuel current rest m sorted g hfind]
      exact ih (sorted ++ [current]) (g.dependents.foldl kahnStep (m, rest)).1
        (g.dependents.foldl kahnStep (m, rest)).2 inv' hmeas'

/- ============================================================
   Claims C2/C3 : the loop's initial state and final state
   ============================================================ -/

/-- The initial queue of `_topological_sort`: names whose initial
in-degree is zero, in registration order. -/
def kahnQueue0 (gems : List GemDescriptor) : List String :=
  ((inDegreeInit gems).filter (fun p => p.2 == 0)).map (·.1)

/-- The names popped by the while loop of `_topological_sort`, in pop
order (the part of the result before any cycle fallback). -/
def kahn_phase (gems : List GemDescriptor) : List String :=
  (kahnLoop gems gems.length (kahnQueue0 gems) (inDegreeInit gems) []).1

/-- The in-degree dict left behind by the while loop. -/
def kahnFinalM (gems : List GemDescriptor) : List (String × Int) :=
  (kahnLoop gems gems.length (kahnQueue0 gems) (inDegreeInit gems) []).2.1

theorem topological_sort_eq (gems : List GemDescriptor) :
    topological_sort gems =
      if (kahn_phase gems).length ≠ gems.length then
        (kahn_phase gems ++
          (gems.map (·.name)).filter (fun n => !((kahn_phase gems).contains n)),
         true)
      else (kahn_phase gems, false) := rfl

theorem kahn_initial_inv (gems : List GemDescriptor)
    (hnd : (gemNames gems).Nodup) :
    KahnInv gems [] (inDegreeInit gems) (kahnQueue0 gems) := by
  have hkeys := inDegreeInit_keys gems
  have hkeysnd : ((inDegreeInit gems).map (·.1)).Nodup := by
    rw [hkeys]; exact hnd
  refine ⟨hkeys, ?_, ?_, ?_, ?_, ?_⟩
  · simp only [List.nil_append]
    have hsl : (((inDegreeInit gems).filter (fun p => p.2 == 0)).map (·.1)).Sublist
        ((inDegreeInit gems).map (·.1)) :=
      (List.filter_sublist _).map _
    exact hkeysnd.sublist hsl
  · simp only [List.nil_append]
    intro x hx
    rw [← hkeys]
    obtain ⟨p, hp, rfl⟩ := List.mem_map.1 hx
    exact List.mem_map_of_mem _ (List.mem_of_mem_filter hp)
  · intro x hx
    simp only [List.nil_append]
    obtain ⟨g, hgf, hgmem, hgname⟩ := findGem_mem_of_names gems x hx
    have hget : dictGet x (inDegreeInit gems) =
        some (countRegDeps gems g : Int) := by
      rw [← hgname]
      exact inDegreeInit_get gems hnd g hgmem
    rw [show (x ∈ kahnQueue0 gems) ↔
        (x ∈ ((inDegreeInit gems).filter (fun p => p.2 == 0)).map (·.1)) from
        Iff.rfl]
    rw [mem_filter_zero_iff (inDegreeInit gems) hkeysnd x, hget, mGet, hget]
    simp only [Option.getD_some, Option.some.injEq]
    omega
  · intro g hg
    rw [inDegreeInit_get gems hnd g hg, decSum_nil]
    simp
  · intro i hi
    simp at hi

theorem kahn_initial_measure (gems : List GemDescriptor) :
    (kahnQueue0 gems).length + posCount (inDegreeInit gems) ≤ gems.length := by
  have hlen : (kahnQueue0 gems).length =
      ((inDegreeInit gems).filter (fun p => p.2 == 0)).length := by
    simp [kahnQueue0]
  rw [hlen, posCount]
  have hdisj : ∀ p ∈ inDegreeInit gems,
      ¬((p.2 == (0 : Int)) = true ∧ (decide (0 < p.2)) = true) := by
    intro p _ hc
    obtain ⟨h1, h2⟩ := hc
    have h1' : p.2 = 0 := by simpa using h1
    have h2' : (0 : Int) < p.2 := of_decide_eq_true h2
    omega
  have hsum := length_filter_add_filter_le (inDegreeInit gems)
    (fun p => p.2 == 0) (fun p => decide (0 < p.2)) hdisj
  have hmlen : (inDegreeInit gems).length = gems.length := by
    have hcl := congrArg List.length (inDegreeInit_keys gems)
    simpa [gemNames] using hcl
  omega

/-- The while loop exhausts its queue and establishes the invariant at the
final state. -/
theorem kahn_phase_spec (gems : List GemDescriptor)
    (hnd : (gemNames gems).Nodup)
    (hdeps : ∀ g ∈ gems, g.dependents = dependentsOf gems g.name) :
    KahnInv gems (kahn_phase gems) (kahnFinalM gems) [] :=
  (kahn_master gems hnd hdeps gems.length [] (inDegreeInit gems)
    (kahnQueue0 gems) (kahn_initial_inv gems hnd)
    (kahn_initial_measure gems)).2

/- ============================================================
   Claims C2/C3 : completeness and the edge-ordering property
   ============================================================ -/

/-- With an acyclic registered graph — witnessed by a rank that drops along
every registered dependency edge — the while loop pops every registered
name (no gem can starve: a minimal-rank leftover would need a leftover
registered dependency of smaller rank). -/
theorem kahn_phase_complete (gems : List GemDescriptor)
    (hnd : (gemNames gems).Nodup)
    (hdeps : ∀ g ∈ gems, g.dependents = dependentsOf gems g.name)
    (rank : String → Nat)
    (hacyc : ∀ g ∈ gems, ∀ d ∈ g.dependencies,
      (findGem gems d).isSome = true → rank d < rank g.name) :
    ∀ x ∈ gemNames gems, x ∈ kahn_phase gems := by
  have inv := kahn_phase_spec gems hnd hdeps
  by_contra hcon
  push_neg at hcon
  obtain ⟨x0, hx0n, hx0s⟩ := hcon
  have hSne : (gemNames gems).filter
      (fun n => !(decide (n ∈ kahn_phase gems))) ≠ [] := by
    intro h
    have hx0S : x0 ∈ (gemNames gems).filter
        (fun n => !(decide (n ∈ kahn_phase gems))) := by
      rw [List.mem_filter]
      exact ⟨hx0n, by simpa using hx0s⟩
    rw [h] at hx0S
    cases hx0S
  obtain ⟨y, hyS, hymin⟩ := exists_min_rank rank _ hSne
  have hyn : y ∈ gemNames gems := (List.mem_filter.1 hyS).1
  have hys : y ∉ kahn_phase gems := by
    have := (List.mem_filter.1 hyS).2
    simpa using this
  obtain ⟨gy, hgyf, hgymem, hgyname⟩ := findGem_mem_of_names gems y hyn
  have hsnd : (kahn_phase gems).Nodup := by
    have := inv.nodup
    simpa using this
  have hpos : ¬ mGet (kahnFinalM gems) y ≤ 0 := by
    intro hle
    apply hys
    have := (inv.mem_iff y hyn).2 hle
    simpa using this
  have hval := inv.value gy hgymem
  rw [decSum_eq_filter gems hnd gy hgymem _ hsnd] at hval
  rw [← hgyname, mGet, hval] at hpos
  simp only [Option.getD_some] at hpos
  have hlt : ((gy.dependencies.filter
      (fun d => decide (d ∈ kahn_phase gems))).length) <
      countRegDeps gems gy := by
    omega
  have hnotall : ¬ ∀ d ∈ gy.dependencies, (findGem gems d).isSome = true →
      (decide (d ∈ kahn_phase gems)) = true := by
    intro hall
    have hmono := length_filter_mono gy.dependencies
      (fun d => (findGem gems d).isSome)
      (fun d => decide (d ∈ kahn_phase gems)) hall
    have hcr : countRegDeps gems gy ≤ ((gy.dependencies.filter
        (fun d => decide (d ∈ kahn_phase gems))).length) := hmono
    omega
  push_neg at hnotall
  obtain ⟨d, hd, hdreg, hdns⟩ := hnotall
  have hdnm : d ∉ kahn_phase gems := by
    intro hc
    exact hdns (decide_eq_true hc)
  have hdn : d ∈ gemNames gems := (findGem_isSome_iff gems d).1 hdreg
  have hdS : d ∈ (gemNames gems).filter
      (fun n => !(decide (n ∈ kahn_phase gems))) := by
    rw [List.mem_filter]
    exact ⟨hdn, by simpa using hdnm⟩
  have hrk := hymin d hdS
  have hedge := hacyc gy hgymem d hd hdreg
  rw [hgyname] at hedge
  omega

/-- When every registered name is popped, the Kahn phase has full length. -/
theorem kahn_phase_length_of_complete (gems : List GemDescriptor)
    (hnd : (gemNames gems).Nodup)
    (hdeps : ∀ g ∈ gems, g.dependents = dependentsOf gems g.name)
    (hall : ∀ x ∈ gemNames gems, x ∈ kahn_phase gems) :
    (kahn_phase gems).length = gems.length := by
  have inv := kahn_phase_spec gems hnd hdeps
  have hsnd : (kahn_phase gems).Nodup := by
    have := inv.nodup
    simpa using this
  have hsub : ∀ x ∈ kahn_phase gems, x ∈ gemNames gems := by
    intro x hx
    exact inv.subset x (by simpa using hx)
  have hfin : (kahn_phase gems).toFinset = (gemNames gems).toFinset := by
    apply Finset.Subset.antisymm
    · intro a ha
      exact List.mem_toFinset.2 (hsub a (List.mem_toFinset.1 ha))
    · intro a ha
      exact List.mem_toFinset.2 (hall a (List.mem_toFinset.1 ha))
  have h1 : (kahn_phase gems).toFinset.card = (kahn_phase gems).length :=
    List.toFinset_card_of_nodup hsnd
  have h2 : (gemNames gems).toFinset.card = (gemNames gems).length :=
    List.toFinset_card_of_nodup hnd
  have h3 : (gemNames gems).length = gems.length := by
    simp [gemNames]
  rw [hfin] at h1
  omega

/-- Conversely, a full-length Kahn phase contains every registered name. -/
theorem kahn_phase_all_of_length (gems : List GemDescriptor)
    (hnd : (gemNames gems).Nodup)
    (hdeps : ∀ g ∈ gems, g.dependents = dependentsOf gems g.name)
    (hlen : (kahn_phase gems).length = gems.length) :
    ∀ x ∈ gemNames gems, x ∈ kahn_phase gems := by
  have inv := kahn_phase_spec gems hnd hdeps
  have hsnd : (kahn_phase gems).Nodup := by
    have := inv.nodup
    simpa using this
  have hsub : ∀ x ∈ kahn_phase gems, x ∈ gemNames gems := by
    intro x hx
    exact inv.subset x (by simpa using hx)
  have hfsub : (kahn_phase gems).toFinset ⊆ (gemNames gems).toFinset := by
    intro a ha
    exact List.mem_toFinset.2 (hsub a (List.mem_toFinset.1 ha))
  have h1 : (kahn_phase gems).toFinset.card = (kahn_phase gems).length :=
    List.toFinset_card_of_nodup hsnd
  have h2 : (gemNames gems).toFinset.card = (gemNames gems).length :=
    List.toFinset_card_of_nodup hnd
  have h3 : (gemNames gems).length = gems.length := by
    simp [gemNames]
  have hfeq : (kahn_phase gems).toFinset = (gemNames gems).toFinset := by
    apply Finset.eq_of_subset_of_card_le hfsub
    omega
  intro x hx
  have : x ∈ (kahn_phase gems).toFinset := by
    rw [hfeq]
    exact List.mem_toFinset.2 hx
  exact List.mem_toFinset.1 this

/-- Direct registered dependency edges respect pop order: the dependency's
first position strictly precedes the dependent gem's. -/
theorem kahn_phase_edge_lt (gems : List GemDescriptor)
    (hnd : (gemNames gems).Nodup)
    (hdeps : ∀ g ∈ gems, g.dependents = dependentsOf gems g.name)
    (hall : ∀ x ∈ gemNames gems, x ∈ kahn_phase gems)
    (g : GemDescriptor) (hg : g ∈ gems) (d : String) (hd : d ∈ g.dependencies)
    (hreg : (findGem gems d).isSome = true) :
    idxOfStr d (kahn_phase gems) < idxOfStr g.name (kahn_phase gems) := by
  have inv := kahn_phase_spec gems hnd hdeps
  have hgn : g.name ∈ gemNames gems := List.mem_map_of_mem (·.name) hg
  have hgs : g.name ∈ kahn_phase gems := hall g.name hgn
  have hi := idxOfStr_lt_length hgs
  have hgetd := getD_idxOfStr hgs
  have htake := inv.sortedOK (idxOfStr g.name (kahn_phase gems)) hi g hg
    hgetd.symm d hd hreg
  exact idxOfStr_lt_of_mem_take htake

/- ============================================================
   Claims C2/C3 : transfer along `_build_dependency_graph`
   ============================================================ -/

theorem dependentsOf_build (gems : List GemDescriptor) (x : String) :
    dependentsOf (build_dependency_graph gems) x = dependentsOf gems x := by
  rw [build_dependency_graph_closed, dependentsOf, flatMap_of_map]
  rfl

theorem gemNames_build (gems : List GemDescriptor) :
    gemNames (build_dependency_graph gems) = gemNames gems := by
  simp only [gemNames, build_dependency_graph_closed, List.map_map]
  rfl

theorem findGem_build_isSome (gems : List GemDescriptor) (x : String) :
    (findGem (build_dependency_graph gems) x).isSome =
      (findGem gems x).isSome := by
  rw [build_dependency_graph_closed,
    findGem_map gems (fun g => { g with dependents := dependentsOf gems g.name })
      (fun g => rfl) x]
  cases findGem gems x <;> rfl

theorem build_hdeps (gems : List GemDescriptor) :
    ∀ g ∈ build_dependency_graph gems,
      g.dependents = dependentsOf (build_dependency_graph gems) g.name := by
  intro g hg
  rw [build_dependency_graph_closed] at hg
  obtain ⟨g0, hg0, rfl⟩ := List.mem_map.1 hg
  rw [dependentsOf_build]

theorem build_length (gems : List GemDescriptor) :
    (build_dependency_graph gems).length = gems.length := by
  rw [build_dependency_graph_closed]
  simp

/- ============================================================
   Claim C3 : completeness of the order and the cycle policy
   ============================================================ -/

/-- C3: with distinct registered names, `get_gems_in_dependency_order`
returns a list that contains every registered gem name exactly once and
nothing else; the list is the Kahn pop phase followed by the names the
queue never reached, kept in registration order; the cyclic-dependency
diagnostic fires exactly when the pop phase misses some gem; and when it
does not fire, every registered dependency occurs strictly before its
dependent gem. -/
theorem c3_complete_order_and_cycle_policy
    (r : GemDependencyResolver) (hbuilt : r.graph_built = false)
    (hnd : (gemNames r.gems).Nodup) :
    (∀ x ∈ gemNames r.gems, ((get_gems_in_dependency_order r).1).count x = 1) ∧
    (∀ x ∈ (get_gems_in_dependency_order r).1, x ∈ gemNames r.gems) ∧
    ((get_gems_in_dependency_order r).1 =
      kahn_phase (build_dependency_graph r.gems) ++
        (gemNames r.gems).filter
          (fun n => !((kahn_phase (build_dependency_graph r.gems)).contains n))) ∧
    ((topological_sort (build_dependency_graph r.gems)).2 = false ↔
      (kahn_phase (build_dependency_graph r.gems)).length = r.gems.length) ∧
    ((topological_sort (build_dependency_graph r.gems)).2 = false →
      ∀ g ∈ r.gems, ∀ d ∈ g.dependencies, (findGem r.gems d).isSome = true →
        idxOfStr d (get_gems_in_dependency_order r).1 <
          idxOfStr g.name (get_gems_in_dependency_order r).1) := by
  have hndb : (gemNames (build_dependency_graph r.gems)).Nodup := by
    rw [gemNames_build]
    exact hnd
  have hdepsb := build_hdeps r.gems
  have inv := kahn_phase_spec (build_dependency_graph r.gems) hndb hdepsb
  have hsnd : (kahn_phase (build_dependency_graph r.gems)).Nodup := by
    have := inv.nodup
    simpa using this
  have hsub : ∀ x ∈ kahn_phase (build_dependency_graph r.gems),
      x ∈ gemNames r.gems := by
    intro x hx
    rw [← gemNames_build]
    exact inv.subset x (by simpa using hx)
  have horder : (get_gems_in_dependency_order r).1 =
      (topological_sort (build_dependency_graph r.gems)).1 := by
    simp [get_gems_in_dependency_order, hbuilt]
  have hblen := build_length r.gems
  have hnames : (build_dependency_graph r.gems).map (·.name) =
      gemNames r.gems := gemNames_build r.gems
  -- the order always decomposes as pop phase plus leftover filter
  have hdecomp : (get_gems_in_dependency_order r).1 =
      kahn_phase (build_dependency_graph r.gems) ++
        (gemNames r.gems).filter
          (fun n => !((kahn_phase (build_dependency_graph r.gems)).contains n)) := by
    rw [horder, topological_sort_eq]
    by_cases hc : (kahn_phase (build_dependency_graph r.gems)).length =
        (build_dependency_graph r.gems).length
    · have hall := kahn_phase_all_of_length _ hndb hdepsb hc
      have hfil : (gemNames r.gems).filter
          (fun n => !((kahn_phase (build_dependency_graph r.gems)).contains n)) =
          [] := by
        rw [List.filter_eq_nil_iff]
        intro a ha
        have has : a ∈ kahn_phase (build_dependency_graph r.gems) := by
          apply hall
          rw [gemNames_build]
          exact ha
        rw [contains_eq_decide_mem]
        simp [has]
      simp only [hc, ne_eq, not_true_eq_false, if_false, ite_false, hfil,
        List.append_nil]
    · simp only [ne_eq, hc, not_false_eq_true, if_pos, hnames]
  refine ⟨?_, ?_, hdecomp, ?_, ?_⟩
  · -- every registered name appears exactly once
    intro x hx
    rw [hdecomp, List.count_append]
    by_cases hxs : x ∈ kahn_phase (build_dependency_graph r.gems)
    · have h1 : (kahn_phase (build_dependency_graph r.gems)).count x = 1 :=
        List.count_eq_one_of_mem hsnd hxs
      have h0 : ((gemNames r.gems).filter
          (fun n => !((kahn_phase (build_dependency_graph r.gems)).contains n))).count
            x = 0 := by
        rw [List.count_eq_zero]
        intro hc
        have hp := (List.mem_filter.1 hc).2
        rw [contains_eq_decide_mem] at hp
        simp [hxs] at hp
      omega
    · have h1 : (kahn_phase (build_dependency_graph r.gems)).count x = 0 :=
        List.count_eq_zero.2 hxs
      have hmemf : x ∈ (gemNames r.gems).filter
          (fun n => !((kahn_phase (build_dependency_graph r.gems)).contains n)) := by
        rw [List.mem_filter]
        refine ⟨hx, ?_⟩
        rw [contains_eq_decide_mem]
        simp [hxs]
      have hfnd : ((gemNames r.gems).filter
          (fun n => !((kahn_phase (build_dependency_graph r.gems)).contains n))).Nodup :=
        hnd.filter _
      have h2 := List.count_eq_one_of_mem hfnd hmemf
      omega
  · -- nothing but registered names appears
    intro x hxo
    rw [hdecomp] at hxo
    rcases List.mem_append.1 hxo with hx | hx
    · exact hsub x hx
    · exact (List.mem_filter.1 hx).1
  · -- the diagnostic characterization
    rw [topological_sort_eq]
    by_cases hc : (kahn_phase (build_dependency_graph r.gems)).length =
        (build_dependency_graph r.gems).length
    · simp only [hc, ne_eq, not_true_eq_false, if_false, ite_false]
      constructor
      · intro _
        omega
      · intro _
        trivial
    · simp only [ne_eq, hc, not_false_eq_true, if_pos]
      constructor
      · intro h
        cases h
      · intro h
        exfalso
        apply hc
        omega
  · -- no diagnostic: dependencies precede dependents
    intro hflag g hg d hd hreg
    have hc : (kahn_phase (build_dependency_graph r.gems)).length =
        (build_dependency_graph r.gems).length := by
      by_contra hcn
      rw [topological_sort_eq] at hflag
      simp only [ne_eq, hcn, not_false_eq_true, if_pos] at hflag
      cases hflag
    have hall := kahn_phase_all_of_length _ hndb hdepsb hc
    have hgb : ({ g with dependents := dependentsOf r.gems g.name } :
        GemDescriptor) ∈ build_dependency_graph r.gems := by
      rw [build_dependency_graph_closed]
      exact List.mem_map_of_mem _ hg
    have hregb : (findGem (build_dependency_graph r.gems) d).isSome = true := by
      rw [findGem_build_isSome]
      exact hreg
    have hlt := kahn_phase_edge_lt (build_dependency_graph r.gems) hndb hdepsb
      hall ({ g with dependents := dependentsOf r.gems g.name }) hgb d hd hregb
    have horder2 : (get_gems_in_dependency_order r).1 =
        kahn_phase (build_dependency_graph r.gems) := by
      rw [horder, topological_sort_eq]
      simp only [hc, ne_eq, not_true_eq_false, if_false, ite_false]
    rw [horder2]
    exact hlt

/- ============================================================
   Claim C2 : transitive dependencies and the order
   ============================================================ -/

/-- Reachability along declared dependency edges whose source is a
registered gem — exactly the edges `_collect_dependencies` can follow. -/
inductive DepReach (gems : List GemDescriptor) : String → String → Prop where
  | direct : ∀ {p d : String} {g : GemDescriptor},
      findGem gems p = some g → d ∈ g.dependencies → DepReach gems p d
  | step : ∀ {p mid d : String} {g : GemDescriptor},
      findGem gems p = some g → mid ∈ g.dependencies →
      DepReach gems mid d → DepReach gems p d

/-- Everything `_collect_dependencies` adds (beyond the incoming result
accumulator) is reachable from the queried name. -/
theorem collect_dependencies_sound (gems : List GemDescriptor) :
    ∀ (fuel : Nat) (name : String) (vr : List String × List String),
      ∀ d ∈ (collect_dependencies gems fuel name vr true).2,
        d ∈ vr.2 ∨ DepReach gems name d := by
  intro fuel
  induction fuel with
  | zero =>
    intro name vr d hd
    exact Or.inl hd
  | succ fuel ih =>
    intro name vr d hd
    cases hfind : findGem gems name with
    | none =>
      simp only [collect_dependencies, hfind] at hd
      exact Or.inl hd
    | some g =>
      simp only [collect_dependencies, hfind, if_true] at hd
      have hinner : ∀ (deps : List String), (∀ x ∈ deps, x ∈ g.dependencies) →
          ∀ (vr0 : List String × List String),
          ∀ d' ∈ (deps.foldl (fun vr dep =>
              if dep ∈ vr.1 then vr
              else collect_dependencies gems fuel dep
                (vr.1 ++ [dep], vr.2 ++ [dep]) true) vr0).2,
            d' ∈ vr0.2 ∨ DepReach gems name d' := by
        intro deps
        induction deps with
        | nil =>
          intro _ vr0 d' hd'
          exact Or.inl hd'
        | cons dep rest ihd =>
          intro hsub vr0 d' hd'
          have hdepmem : dep ∈ g.dependencies := hsub dep (List.mem_cons_self _ _)
          have hrest : ∀ x ∈ rest, x ∈ g.dependencies :=
            fun x hx => hsub x (List.mem_cons_of_mem _ hx)
          simp only [List.foldl_cons] at hd'
          by_cases hvis : dep ∈ vr0.1
          · rw [if_pos hvis] at hd'
            exact ihd hrest vr0 d' hd'
          · rw [if_neg hvis] at hd'
            rcases ihd hrest _ d' hd' with hin | hreach
            · rcases ih dep (vr0.1 ++ [dep], vr0.2 ++ [dep]) d' hin with
                hin2 | hreach2
              · rcases List.mem_append.1 hin2 with h | h
                · exact Or.inl h
                · simp only [List.mem_singleton] at h
                  subst h
                  exact Or.inr (DepReach.direct hfind hdepmem)
              · exact Or.inr (DepReach.step hfind hdepmem hreach2)
            · exact Or.inr hreach
      exact hinner g.dependencies (fun x hx => hx) vr d hd

/-- Reachability survives `_build_dependency_graph` (which only rewrites
the `dependents` lists). -/
theorem depReach_build (gems : List GemDescriptor) :
    ∀ p d : String, DepReach gems p d →
      DepReach (build_dependency_graph gems) p d := by
  intro p d h
  induction h with
  | direct hfind hd =>
    rename_i p' d' g'
    have hfb : findGem (build_dependency_graph gems) p' =
        some { g' with dependents := dependentsOf gems g'.name } := by
      rw [build_dependency_graph_closed,
        findGem_map gems (fun g => { g with dependents := dependentsOf gems g.name })
          (fun g => rfl), hfind]
      rfl
    exact DepReach.direct hfb hd
  | step hfind hmid hrest ihd =>
    rename_i p' mid' d' g'
    have hfb : findGem (build_dependency_graph gems) p' =
        some { g' with dependents := dependentsOf gems g'.name } := by
      rw [build_dependency_graph_closed,
        findGem_map gems (fun g => { g with dependents := dependentsOf gems g.name })
          (fun g => rfl), hfind]
      rfl
    exact DepReach.step hfb hmid ihd

/-- A registered gem reachable from `p` is popped strictly before `p`. -/
theorem depReach_before (gems : List GemDescriptor)
    (hnd : (gemNames gems).Nodup)
    (hdeps : ∀ g ∈ gems, g.dependents = dependentsOf gems g.name)
    (hall : ∀ x ∈ gemNames gems, x ∈ kahn_phase gems) :
    ∀ p d : String, DepReach gems p d → (findGem gems d).isSome = true →
      idxOfStr d (kahn_phase gems) < idxOfStr p (kahn_phase gems) := by
  intro p d hreach
  induction hreach with
  | direct hfind hd =>
    intro hdreg
    obtain ⟨hg, hgname⟩ := findGem_eq_some gems _ _ hfind
    have hlt := kahn_phase_edge_lt gems hnd hdeps hall _ hg _ hd hdreg
    rw [hgname] at hlt
    exact hlt
  | step hfind hmid hrest ihd =>
    rename_i p' mid' d' g'
    intro hdreg
    have hmidreg : (findGem gems mid').isSome = true := by
      cases hrest with
      | direct h _ => rw [h]; rfl
      | step h _ _ => rw [h]; rfl
    have h1 := ihd hdreg
    obtain ⟨hg, hgname⟩ := findGem_eq_some gems _ _ hfind
    have h2 := kahn_phase_edge_lt gems hnd hdeps hall _ hg _ hmid hmidreg
    rw [hgname] at h2
    omega

/-- A registration sequence refuting the literal reading of the ordering
claim: `A` (not itself on any dependency cycle) declares the unregistered
`Missing` and the gem `B`, while `B` and `C` form a cycle below `A`. -/
def c2res : GemDependencyResolver :=
  register_gem (register_gem (register_gem resolver_init
    { name := "A", dependencies := ["Missing", "B"] })
    { name := "B", dependencies := ["C"] })
    { name := "C", dependencies := ["B"] }

/-- C2 (counterexample): `A` is on no cycle (it is not among its own
transitive dependencies), yet its transitive dependency `B` does not occur
before `A` in the order, and its transitive dependency `Missing` does not
occur in the order at all — the queue starts empty, so the order is the
registration-order fallback `[A, B, C]`. -/
theorem c2_counterexample :
    ("A" ∉ get_gem_dependencies c2res "A" true) ∧
    ("B" ∈ get_gem_dependencies c2res "A" true) ∧
    ("Missing" ∈ get_gem_dependencies c2res "A" true) ∧
    ¬(idxOfStr "B" (get_gems_in_dependency_order c2res).1 <
      idxOfStr "A" (get_gems_in_dependency_order c2res).1) ∧
    ("Missing" ∉ (get_gems_in_dependency_order c2res).1) := by
  decide

/-- C2 (amended): when the whole registered dependency graph is acyclic —
witnessed by a rank that drops along every registered edge — every
registered name among `get_gem_dependencies(P, include_transitive=True)`
occurs in `get_gems_in_dependency_order()` strictly before `P`. -/
theorem c2_amended_transitive_deps_precede
    (r : GemDependencyResolver) (hbuilt : r.graph_built = false)
    (hnd : (gemNames r.gems).Nodup)
    (rank : String → Nat)
    (hacyc : ∀ g ∈ r.gems, ∀ d ∈ g.dependencies,
      (findGem r.gems d).isSome = true → rank d < rank g.name)
    (P d : String)
    (hd : d ∈ get_gem_dependencies r P true)
    (hdreg : (findGem r.gems d).isSome = true) :
    idxOfStr d (get_gems_in_dependency_order r).1 <
      idxOfStr P (get_gems_in_dependency_order r).1 := by
  have hndb : (gemNames (build_dependency_graph r.gems)).Nodup := by
    rw [gemNames_build]
    exact hnd
  have hdepsb := build_hdeps r.gems
  have hacycb : ∀ g ∈ build_dependency_graph r.gems, ∀ dd ∈ g.dependencies,
      (findGem (build_dependency_graph r.gems) dd).isSome = true →
        rank dd < rank g.name := by
    intro g hg dd hdd hreg
    rw [build_dependency_graph_closed] at hg
    obtain ⟨g0, hg0, rfl⟩ := List.mem_map.1 hg
    rw [findGem_build_isSome] at hreg
    exact hacyc g0 hg0 dd hdd hreg
  have hall := kahn_phase_complete (build_dependency_graph r.gems) hndb hdepsb
    rank hacycb
  have hreach : DepReach r.gems P d := by
    rcases collect_dependencies_sound r.gems (totalDepsLen r.gems + 1) P ([], [])
      d hd with hin | hr
    · cases hin
    · exact hr
  have hreachb := depReach_build r.gems P d hreach
  have hdregb : (findGem (build_dependency_graph r.gems) d).isSome = true := by
    rw [findGem_build_isSome]
    exact hdreg
  have hlt := depReach_before (build_dependency_graph r.gems) hndb hdepsb hall
    P d hreachb hdregb
  have hlen := kahn_phase_length_of_complete _ hndb hdepsb hall
  have horder : (get_gems_in_dependency_order r).1 =
      kahn_phase (build_dependency_graph r.gems) := by
    have h1 : (get_gems_in_dependency_order r).1 =
        (topological_sort (build_dependency_graph r.gems)).1 := by
      simp [get_gems_in_dependency_order, hbuilt]
    rw [h1, topological_sort_eq]
    simp [hlen]
  rw [horder]
  exact hlt

/-- An acyclic two-gem registration for exercising the amended claim. -/
def c2wres : GemDependencyResolver :=
  register_gem (register_gem resolver_init { name := "Physics" })
    { name := "Vehicle", dependencies := ["Physics"] }

/-- A rank function witnessing acyclicity of `c2wres`. -/
def c2wrank : String → Nat :=
  fun s => if s = "Physics" then 0 else 1

theorem c2_amended_transitive_deps_precede_witness :
    (c2wres.graph_built = false) ∧
    ((gemNames c2wres.gems).Nodup) ∧
    (∀ g ∈ c2wres.gems, ∀ d ∈ g.dependencies,
      (findGem c2wres.gems d).isSome = true → c2wrank d < c2wrank g.name) ∧
    ("Physics" ∈ get_gem_dependencies c2wres "Vehicle" true) ∧
    ((findGem c2wres.gems "Physics").isSome = true) ∧
    (idxOfStr "Physics" (get_gems_in_dependency_order c2wres).1 <
      idxOfStr "Vehicle" (get_gems_in_dependency_order c2wres).1) :=
  ⟨by decide, by decide, by decide, by decide, by decide,
   c2_amended_transitive_deps_precede c2wres (by decide) (by decide) c2wrank
     (by decide) "Vehicle" "Physics" (by decide) (by decide)⟩

/-- Three gems on a dependency cycle, for exercising the cycle policy. -/
def c3res : GemDependencyResolver :=
  register_gem (register_gem (register_gem resolver_init
    { name := "A", dependencies := ["B"] })
    { name := "B", dependencies := ["C"] })
    { name := "C", dependencies := ["A"] }

theorem c3_complete_order_and_cycle_policy_witness :
    (c3res.graph_built = false) ∧
    ((gemNames c3res.gems).Nodup) ∧
    ((∀ x ∈ gemNames c3res.gems,
        ((get_gems_in_dependency_order c3res).1).count x = 1) ∧
      (∀ x ∈ (get_gems_in_dependency_order c3res).1, x ∈ gemNames c3res.gems) ∧
      ((get_gems_in_dependency_order c3res).1 =
        kahn_phase (build_dependency_graph c3res.gems) ++
          (gemNames c3res.gems).filter
            (fun n =>
              !((kahn_phase (build_dependency_graph c3res.gems)).contains n))) ∧
      ((topological_sort (build_dependency_graph c3res.gems)).2 = false ↔
        (kahn_phase (build_dependency_graph c3res.gems)).length =
          c3res.gems.length) ∧
      ((topological_sort (build_dependency_graph c3res.gems)).2 = false →
        ∀ g ∈ c3res.gems, ∀ d ∈ g.dependencies,
          (findGem c3res.gems d).isSome = true →
            idxOfStr d (get_gems_in_dependency_order c3res).1 <
              idxOfStr g.name (get_gems_in_dependency_order c3res).1)) :=
  ⟨by decide, by decide,
   c3_complete_order_and_cycle_policy c3res (by decide) (by decide)⟩

end O3DESharp
